import Mathlib

/-!
Verification development for `scripts/enrich.py`: a three-axis classifier
(implementation language, functional category, authoring framework) over
agent records, built from weighted signal extraction, score aggregation
and a confidence gate.  All definitions below are shallow embeddings of
the Python source; the regular expressions of the source are alternations
of literal words guarded by word boundaries (plus a few gap wildcards and
one lookahead), modelled by the executable matchers of the first section.
-/

set_option autoImplicit false

namespace Enrich

/-! ### Text primitives -/

/-- Python regex word character class `\w` (ASCII fragment used by the data). -/
def isWordChar (c : Char) : Bool := c.isAlphanum || c == '_'

/-- Python regex whitespace class `\s` (ASCII fragment). -/
def isWS (c : Char) : Bool :=
  c == ' ' || c == '\t' || c == '\n' || c == '\r' || c == '\x0b' || c == '\x0c'

def wOpt : Option Char → Bool
  | none => false
  | some c => isWordChar c

/-- Word boundary between two adjacent positions: the characters on each side
disagree on wordness, string edges counting as non-word. -/
def bdry (a b : Option Char) : Bool := wOpt a != wOpt b

/-- Test whether the character list `s` starts with `w`. -/
def spre : List Char → List Char → Bool
  | [], _ => true
  | _ :: _, [] => false
  | a :: as, b :: bs => a == b && spre as bs

/-- Test whether the character list `l` ends with `suf` (Python `endswith`). -/
def endsL (suf l : List Char) : Bool := spre suf.reverse l.reverse

/-- A literal `w` matches at the current position of `s`, the previous
character being `prev`; `lb`/`rb` demand a word boundary on the left/right. -/
def hitAt (lb rb : Bool) (w : List Char) (prev : Option Char) (s : List Char) : Bool :=
  spre w s && (!lb || bdry prev w.head?) && (!rb || bdry w.getLast? (s.drop w.length).head?)

/-- Search of a literal with optional word-boundary guards, as `re.search`
does: some suffix position of `s` matches. -/
def occAux (lb rb : Bool) (w : List Char) (prev : Option Char) : List Char → Bool
  | [] => hitAt lb rb w prev []
  | c :: cs => hitAt lb rb w prev (c :: cs) || occAux lb rb w (some c) cs

/-- Plain substring containment (Python `in`, regexes without boundaries). -/
def containsL (w : List Char) : List Char → Bool
  | [] => spre w []
  | c :: cs => spre w (c :: cs) || containsL w cs

/-- After a `.*` gap (no newline): skip characters until `w2` matches with a
right word boundary. -/
def gapTail (w2 : List Char) : List Char → Bool
  | [] => spre w2 [] && bdry w2.getLast? none
  | c :: cs => (spre w2 (c :: cs) && bdry w2.getLast? (((c :: cs).drop w2.length).head?)) ||
      (c != '\n' && gapTail w2 cs)

/-- Regex `\b w1 .* w2 \b` (as in `generat.*image`). -/
def occGap (w1 w2 : List Char) (prev : Option Char) : List Char → Bool
  | [] => false
  | c :: cs =>
      (spre w1 (c :: cs) && bdry prev w1.head? && gapTail w2 ((c :: cs).drop w1.length)) ||
      occGap w1 w2 (some c) cs

/-- Regex `w1 .? w2` without boundaries (as in `hello.?world`): `w1`, at most
one non-newline character, then `w2`. -/
def opt1At (w1 w2 s : List Char) : Bool :=
  spre w1 s &&
    (spre w2 (s.drop w1.length) ||
      (match s.drop w1.length with
       | [] => false
       | c :: cs => c != '\n' && spre w2 cs))

def containsOpt1 (w1 w2 : List Char) : List Char → Bool
  | [] => opt1At w1 w2 []
  | c :: cs => opt1At w1 w2 (c :: cs) || containsOpt1 w1 w2 cs

/-- Zero or more further whitespace characters, then one of `ws` with a right
word boundary. -/
def afterWS (ws : List (List Char)) : List Char → Bool
  | [] => false
  | c :: cs =>
      (ws.any fun w => spre w (c :: cs) && bdry w.getLast? (((c :: cs).drop w.length).head?)) ||
      (isWS c && afterWS ws cs)

/-- Regex `\b (p1|...) \s+ (w1|...) \b` (as in `\bGo(?:lang)?\s+(?:sdk|...)\b`
or `\blaw\s+firm\b`). -/
def occPrefWS (prefs ws : List (List Char)) (prev : Option Char) : List Char → Bool
  | [] => false
  | c :: cs =>
      (prefs.any fun p => spre p (c :: cs) && bdry prev p.head? &&
        (match (c :: cs).drop p.length with
         | [] => false
         | d :: ds => isWS d && afterWS ws ds)) ||
      occPrefWS prefs ws (some c) cs

/-- Regex `\bJava\b(?!\s*Script)`: a bounded occurrence of `Java` whose right
context is not whitespace followed by `Script`. -/
def javaNoScriptAux (prev : Option Char) : List Char → Bool
  | [] => false
  | c :: cs =>
      (spre "Java".data (c :: cs) && bdry prev (some 'J') &&
        (bdry (some 'a') (((c :: cs).drop 4).head?) &&
          !spre "Script".data (((c :: cs).drop 4).dropWhile isWS))) ||
      javaNoScriptAux (some c) cs

/-- Regex `Official A2A (\w+) sample` (no boundaries): leftmost match, the
captured group being the maximal word-character run. -/
def officialTokAux : List Char → Option (List Char)
  | [] => none
  | c :: cs =>
      if spre "Official A2A ".data (c :: cs) then
        let r := (c :: cs).drop 13
        let run := r.takeWhile isWordChar
        if !run.isEmpty && spre " sample".data (r.drop run.length) then some run
        else officialTokAux cs
      else officialTokAux cs

def lowerL (l : List Char) : List Char := l.map Char.toLower

def strLower (s : String) : String := ⟨lowerL s.data⟩

/-! Matchers packaged on `List Char`, one constructor per regex shape.  The
tables below pass text already lowercased whenever the source compiles the
pattern with `re.IGNORECASE` (those literals are written lowercase). -/

def word (w : String) (s : List Char) : Bool := occAux true true w.data none s

def wordAny (ws : List String) (s : List Char) : Bool :=
  ws.any fun w => occAux true true w.data none s

def wordNoLB (w : String) (s : List Char) : Bool := occAux false true w.data none s

def gap (w1 w2 : String) (s : List Char) : Bool := occGap w1.data w2.data none s

def subAny (ws : List String) (s : List Char) : Bool := ws.any fun w => containsL w.data s

def opt1 (w1 w2 : String) (s : List Char) : Bool := containsOpt1 w1.data w2.data s

def prefWS (ps ws : List String) (s : List Char) : Bool :=
  occPrefWS (ps.map String.data) (ws.map String.data) none s

def javaNoScript (s : List Char) : Bool := javaNoScriptAux none s

/-! ### Record model

A record is a JSON object; every field read by the classifier may be absent,
which the Python `dict.get` defaults turn into `""`, `[]` or `{}`. -/

structure Provider where
  name : Option String := none
  url : Option String := none
deriving DecidableEq

structure Skill where
  tags : Option (List String) := none
deriving DecidableEq

structure Agent where
  language : Option String := none
  category : Option String := none
  framework : Option String := none
  tags : Option (List String) := none
  name : Option String := none
  slug : Option String := none
  description : Option String := none
  repository : Option String := none
  sdks : Option (List String) := none
  skills : Option (List Skill) := none
  provider : Option Provider := none
deriving DecidableEq

def getTags (a : Agent) : List String := a.tags.getD []
def getDesc (a : Agent) : String := a.description.getD ""
def getName (a : Agent) : String := a.name.getD ""
def getSlug (a : Agent) : String := a.slug.getD ""
def getRepo (a : Agent) : String := a.repository.getD ""
def getFw (a : Agent) : String := a.framework.getD ""
def getSdks (a : Agent) : List String := a.sdks.getD []
def getSkills (a : Agent) : List Skill := a.skills.getD []
def getProvider (a : Agent) : Provider := a.provider.getD {}
def getSkillTags (sk : Skill) : List String := sk.tags.getD []

/-- Python dict lookup over a literal table (keys are distinct). -/
def alookup (m : List (String × String)) (k : String) : Option String :=
  (m.find? fun p => p.1 == k).map Prod.snd

/-! ### Candidate tally

`collections.Counter` with integer increments: an association list in first
insertion order, updated in place. -/

abbrev Tally := List (String × Nat)

def addTo : Tally → String → Nat → Tally
  | [], l, w => [(l, w)]
  | p :: ps, l, w => if p.1 = l then (p.1, p.2 + w) :: ps else p :: addTo ps l w

def mkTally (xs : List (String × Nat)) : Tally := xs.foldl (fun t p => addTo t p.1 p.2) []

/-- Total weight a contribution list assigns to label `l`. -/
def wsum (xs : List (String × Nat)) (l : String) : Nat :=
  (xs.map fun p => if p.1 = l then p.2 else 0).sum

def maxScore (t : Tally) : Nat := (t.map Prod.snd).foldr max 0

/-- Model of `candidates.most_common(1)[0]`: entry of maximal count, ties resolved
towards the first inserted (Python sorts stably by descending count). -/
def mostCommon1 : Tally → Option (String × Nat)
  | [] => none
  | p :: ps =>
      match mostCommon1 ps with
      | none => some p
      | some q => if q.2 > p.2 then some q else some p

/-- Number of entries achieving the maximal count. -/
def topTieCount (t : Tally) : Nat := t.countP fun p => p.2 == maxScore t

/-- Models `len(top2) == 2 and top2[0][1] == top2[1][1]` over
`candidates.most_common(2)`: the two largest counts agree exactly when at
least two entries achieve the maximum. -/
def hasTie (t : Tally) : Bool := decide (2 ≤ topTieCount t)

/-! ### Language inference -/

def FRAMEWORK_TO_LANGUAGE : List (String × String) := [
  ("google-adk", "python"),
  ("langgraph", "python"),
  ("langchain", "python"),
  ("crewai", "python"),
  ("autogen", "python"),
  ("llamaindex", "python"),
  ("fastapi", "python"),
  ("semantic-kernel", "csharp"),
  ("spring-boot", "java"),
  ("nestjs", "typescript"),
  ("genkit", "typescript"),
  ("openai-agents", "python"),
  ("pydantic-ai", "python"),
  ("strands-agents", "python")]

def TAG_TO_LANGUAGE : List (String × String) := [
  ("python", "python"), ("python3", "python"), ("python-sdk", "python"),
  ("adk-python", "python"), ("flask", "python"), ("django", "python"),
  ("fastapi", "python"),
  ("typescript", "typescript"), ("ts", "typescript"), ("javascript", "typescript"),
  ("js", "typescript"), ("nodejs", "typescript"), ("node", "typescript"),
  ("nextjs", "typescript"), ("nestjs", "typescript"), ("deno", "typescript"),
  ("java", "java"), ("java-sdk", "java"), ("spring", "java"),
  ("spring-boot", "java"), ("springboot", "java"), ("springboot3", "java"),
  ("springframework", "java"), ("spring-ai", "java"), ("a2a4j", "java"),
  ("wildfly", "java"),
  ("go", "go"), ("golang", "go"), ("go-sdk", "go"),
  ("rust", "rust"), ("rust-sdk", "rust"),
  ("csharp", "csharp"), ("c-sharp", "csharp"), ("dotnet", "csharp"),
  (".net", "csharp"), ("aspnet", "csharp"),
  ("kotlin", "kotlin"), ("kotlin-sdk", "kotlin"),
  ("php", "php"), ("php-sdk", "php"), ("sdk-php", "php"),
  ("ruby", "ruby"), ("ruby-gem", "ruby"), ("rubygem", "ruby"),
  ("swift", "swift"), ("elixir", "elixir"),
  ("dart", "dart"), ("flutter", "dart"),
  ("zig", "zig"), ("adk-zig", "zig"),
  ("lua", "lua"),
  ("pydantic-ai", "python"), ("pydantic", "python"), ("modal", "python"),
  ("uvicorn", "python"), ("pip", "python"), ("poetry", "python"), ("uv", "python"),
  ("react", "typescript"), ("reactjs", "typescript"), ("vue", "typescript"),
  ("vite", "typescript"), ("bun", "typescript"), ("npm", "typescript"),
  ("vercel", "typescript"), ("vercel-ai-sdk", "typescript"), ("ai-sdk", "typescript"),
  ("rust-lang", "rust"),
  ("go-lang", "go"),
  ("asp-net-core", "csharp"), ("asp.net", "csharp"), ("blazor", "csharp")]

def NAME_SLUG_LANGUAGE_PATTERNS : List ((List Char → Bool) × String) := [
  (word "python", "python"),
  (wordAny ["typescript", "ts"], "typescript"),
  (word "java", "java"),
  (word "golang", "go"),
  (word "rust", "rust"),
  (word "csharp", "csharp"),
  (word "kotlin", "kotlin"),
  (word "php", "php"),
  (word "ruby", "ruby"),
  (word "swift", "swift"),
  (word "elixir", "elixir"),
  (word "dart", "dart"),
  (word "flutter", "dart"),
  (word "zig", "zig")]

def REPO_SUFFIX_LANGUAGE : List (String × String) := [
  ("-go", "go"), ("-python", "python"), ("-py", "python"), ("-java", "java"),
  ("-ts", "typescript"), ("-typescript", "typescript"), ("-js", "typescript"),
  ("-rust", "rust"), ("-rs", "rust"), ("-csharp", "csharp"), ("-dotnet", "csharp"),
  ("-kotlin", "kotlin"), ("-php", "php"), ("-ruby", "ruby"), ("-rb", "ruby"),
  ("-swift", "swift"), ("-elixir", "elixir"), ("-dart", "dart"), ("-zig", "zig"),
  ("-lua", "lua")]

def DESC_LANGUAGE_PATTERNS : List ((List Char → Bool) × String) := [
  (word "Python", "python"),
  (word "TypeScript", "typescript"),
  (word "JavaScript", "typescript"),
  (word "Node.js", "typescript"),
  (javaNoScript, "java"),
  (prefWS ["Go", "Golang"] ["implementation", "sdk", "library", "client", "server", "agent"], "go"),
  (word "written in Go", "go"),
  (prefWS ["Go"] ["implementation"], "go"),
  (word "Golang", "go"),
  (word "Rust", "rust"),
  (word "C#", "csharp"),
  (wordNoLB ".NET", "csharp"),
  (word "Kotlin", "kotlin"),
  (word "PHP", "php"),
  (word "Ruby", "ruby"),
  (word "Swift", "swift"),
  (word "Elixir", "elixir"),
  (word "Dart", "dart"),
  (word "Flutter", "dart"),
  (word "Zig", "zig")]

def SDK_TO_LANGUAGE : List (String × String) := [
  ("python", "python"), ("typescript", "typescript"), ("java", "java"),
  ("go", "go"), ("rust", "rust"), ("csharp", "csharp"), ("kotlin", "kotlin")]

/-- Rule 1: declared framework field, weight 3. -/
def fwLangContribs (a : Agent) : List (String × Nat) :=
  match alookup FRAMEWORK_TO_LANGUAGE (getFw a) with
  | some lang => [(lang, 3)]
  | none => []

/-- Rule 2: case-folded tag lookup, weight 3 per tag. -/
def tagLangContribs (tags : List String) : List (String × Nat) :=
  tags.filterMap fun t => (alookup TAG_TO_LANGUAGE (strLower t)).map fun lang => (lang, 3)

def rstripSlash (l : List Char) : List Char := (l.reverse.dropWhile fun c => c == '/').reverse

/-- Python `str.split("/")` (empty pieces kept, `"".split("/") == [""]`). -/
def splitSlash : List Char → List (List Char)
  | [] => [[]]
  | c :: cs =>
      match splitSlash cs with
      | [] => [[c]]
      | h :: t => if c = '/' then [] :: h :: t else (c :: h) :: t

/-- Rule 3: repository URL suffix, weight 3 per matching suffix.  The result
`none` models the `IndexError` the Python expression `repo_name[4]` would
raise were it reached with fewer than five segments. -/
def repoLangContribs (repo : String) : Option (List (String × Nat)) :=
  if repo.data.isEmpty then some []
  else if containsL "github.com".data repo.data &&
      decide (5 ≤ (splitSlash (rstripSlash repo.data)).length) then
    match (splitSlash (rstripSlash repo.data)).get? 4 with
    | some seg =>
        some (REPO_SUFFIX_LANGUAGE.filterMap fun p =>
          if endsL p.1.data (lowerL seg) then some (p.2, 3) else none)
    | none => none
  else some []

/-- Rule 4: slug and name, lowercased and joined by a space, weight 2. -/
def nameSlugLangContribs (slug name : String) : List (String × Nat) :=
  let combined := lowerL (slug.data ++ ' ' :: name.data)
  NAME_SLUG_LANGUAGE_PATTERNS.filterMap fun pm => if pm.1 combined then some (pm.2, 2) else none

/-- Rule 5: raw description keywords, weight 2. -/
def descLangContribs (desc : String) : List (String × Nat) :=
  DESC_LANGUAGE_PATTERNS.filterMap fun pm => if pm.1 desc.data then some (pm.2, 2) else none

def OFFICIAL_LANGS : List String :=
  ["python", "java", "typescript", "go", "rust", "csharp", "kotlin"]

/-- Rule 6: structured official-sample prefix, weight 5, guarded by
`desc.startswith("Official A2A")`. -/
def officialLangContribs (desc : String) : List (String × Nat) :=
  if spre "Official A2A".data desc.data then
    match officialTokAux desc.data with
    | some run =>
        let sampleLang : String := ⟨lowerL run⟩
        if sampleLang ∈ OFFICIAL_LANGS then [(sampleLang, 5)] else []
    | none => []
  else []

/-- Rule 7: single declared SDK, weight 1. -/
def sdkLangContribs (sdks : List String) : List (String × Nat) :=
  match sdks with
  | [s] =>
      match alookup SDK_TO_LANGUAGE s with
      | some lang => [(lang, 1)]
      | none => []
  | _ => []

def langContribs? (a : Agent) : Option (List (String × Nat)) :=
  (repoLangContribs (getRepo a)).map fun repoC =>
    fwLangContribs a ++ tagLangContribs (getTags a) ++ repoC ++
    nameSlugLangContribs (getSlug a) (getName a) ++ descLangContribs (getDesc a) ++
    officialLangContribs (getDesc a) ++ sdkLangContribs (getSdks a)

def langTally? (a : Agent) : Option Tally := (langContribs? a).map mkTally

def langTally (a : Agent) : Tally := (langTally? a).getD []

/-- Confidence gate of `infer_language`: empty check, acceptance floor 2,
tie rejection. -/
def gateLang (t : Tally) : Option String :=
  match mostCommon1 t with
  | none => none
  | some (l, s) => if s < 2 then none else if hasTie t then none else some l

def infer_language (a : Agent) : Option String :=
  match langTally? a with
  | some t => gateLang t
  | none => none

/-! ### Category inference -/

def VALID_CATEGORIES : List String := [
  "orchestration", "enterprise", "code-generation", "search",
  "data-analytics", "conversational", "infrastructure", "utility",
  "finance", "security", "media-content", "travel",
  "multi-agent"]

/-- The twelve category labels that actually appear on the right-hand side of
some category rule (every member of `VALID_CATEGORIES` except
`"multi-agent"`). -/
def INFERRED_CATEGORIES : List String := [
  "orchestration", "enterprise", "code-generation", "search",
  "data-analytics", "conversational", "infrastructure", "utility",
  "finance", "security", "media-content", "travel"]

/-- Rules of the form tag set, category, minimum matches. -/
def TAG_CATEGORY_RULES : List (List String × String × Nat) := [
  (["business", "commerce"], "enterprise", 1),
  (["finance", "fintech", "banking", "payment", "payments", "trading", "crypto",
    "blockchain", "defi", "escrow"], "finance", 1),
  (["search", "retrieval", "rag", "web-search", "google-search", "semantic-search"],
    "search", 1),
  (["security", "authentication", "auth", "agent-security", "cybersecurity",
    "vulnerability"], "security", 1),
  (["devops", "docker", "kubernetes", "k8s", "infrastructure", "cloud", "aws", "gcp",
    "azure", "deployment", "ci-cd"], "infrastructure", 1),
  (["image", "video", "audio", "media", "image-generation", "text-to-image",
    "text-to-speech", "tts"], "media-content", 1),
  (["code", "code-generation", "coding", "code-review", "code-assistant",
    "github-copilot"], "code-generation", 1),
  (["data", "data-analysis", "analytics", "data-analytics", "data-science", "dataset",
    "visualization"], "data-analytics", 1),
  (["chat", "chatbot", "conversational", "conversation", "dialog", "dialogue"],
    "conversational", 1),
  (["travel", "flight", "hotel", "booking", "tourism", "trip"], "travel", 1),
  (["multi-agent", "multi-agent-systems", "agent-orchestration", "orchestration",
    "agent-collaboration"], "orchestration", 1),
  (["cli", "tool", "utility", "sdk", "library", "framework", "template", "boilerplate",
    "starter"], "utility", 1),
  (["protocol", "a2a-protocol", "agent-protocol", "agent2agent", "agent-to-agent",
    "llm-protocol", "m2m-protocol", "agentic-framework"], "utility", 1),
  (["mqtt", "amqp", "grpc", "json-rpc", "websocket"], "infrastructure", 1),
  (["demo", "example", "hello-world", "sample", "tutorial", "learning", "starter",
    "scaffold"], "utility", 1),
  (["browser", "browser-automation", "web-testing", "playwright", "selenium",
    "puppeteer"], "infrastructure", 1),
  (["registry", "discovery", "agent-registry", "agent-discovery", "a2a-discovery",
    "agent-marketplace"], "infrastructure", 1),
  (["gateway", "proxy", "middleware", "router", "routing"], "infrastructure", 1),
  (["agent-platform", "aiops", "governance", "guardrails"], "infrastructure", 1),
  (["mcp-server", "mcp-client"], "infrastructure", 1),
  (["ranking-system", "ranking-algorithm"], "infrastructure", 1),
  (["feature-pack", "wrapper", "adapter"], "utility", 1),
  (["legal", "legal-ai", "legal-tech", "contract"], "enterprise", 1),
  (["manufacturing", "machinery"], "enterprise", 1),
  (["healthcare", "medical"], "enterprise", 1),
  (["education", "tutoring", "learning"], "enterprise", 1),
  (["real-estate", "property"], "enterprise", 1)]

/-- Description keyword patterns for category, compiled with `re.IGNORECASE`
in the source (text is passed lowercased, literals written lowercase). -/
def DESC_CATEGORY_PATTERNS : List ((List Char → Bool) × String) := [
  (wordAny ["search", "retriev", "find", "lookup", "query", "rag"], "search"),
  (wordAny ["security", "secur", "authent", "authoriz", "encrypt", "vulnerab",
    "threat"], "security"),
  (wordAny ["financ", "bank", "payment", "trading", "crypto", "blockchain", "escrow",
    "defi"], "finance"),
  (wordAny ["travel", "flight", "hotel", "booking", "trip", "itinerary", "tourism"],
    "travel"),
  (fun s => wordAny ["image", "video", "audio", "media", "text-to-speech"] s ||
    gap "generat" "image" s, "media-content"),
  (fun s => wordAny ["coding", "code review", "program"] s ||
    gap "code" "generat" s || gap "generat" "code" s, "code-generation"),
  (fun s => wordAny ["visualization", "dataset", "analytics"] s ||
    gap "data" "analy" s || gap "analy" "data" s, "data-analytics"),
  (wordAny ["chatbot", "conversational", "dialog", "conversation"], "conversational"),
  (wordAny ["deploy", "docker", "kubernetes", "infra", "devops", "ci/cd"],
    "infrastructure"),
  (fun s => wordAny ["orchestrat", "multi-agent"] s || gap "coordinat" "agent" s,
    "orchestration"),
  (wordAny ["sdk", "library", "framework", "implementation", "toolkit", "boilerplate",
    "template", "starter", "wrapper"], "utility"),
  (wordAny ["sample", "samples", "demo", "example", "tutorial", "beginner", "learning",
    "101", "playground", "toy project", "docs", "documentation"], "utility"),
  (subAny ["文档", "教学", "入门", "示例"], "utility"),
  (wordAny ["agent development kit", "adk", "sdk"], "utility"),
  (fun s => gap "protocol" "implementation" s || gap "implementation" "protocol" s ||
    gap "protocol" "specification" s, "utility"),
  (wordAny ["testing", "mocking", "mock", "test and interact"], "utility"),
  (wordAny ["template", "scaffold", "boilerplate", "starter"], "utility"),
  (fun s => wordAny ["song", "music"] s || gap "generat" "song" s ||
    gap "generat" "music" s || gap "audio" "generat" s, "media-content"),
  (fun s => wordAny ["governance", "aiops"] s || gap "agent" "platform" s ||
    gap "platform" "agent" s, "infrastructure"),
  (wordAny ["dashboard", "monitoring", "observability", "grafana", "prometheus"],
    "data-analytics"),
  (wordAny ["gateway", "proxy", "middleware", "router", "routing"], "infrastructure"),
  (wordAny ["registry", "discover", "catalog", "directory"], "infrastructure"),
  (fun s => wordAny ["legal", "lawyer", "attorney"] s || prefWS ["law"] ["firm"] s ||
    gap "contract" "review" s, "enterprise")]

/-- Name/slug keyword-family checks, weight 1 each; the patterns carry no word
boundaries, so they are plain substring tests. -/
def NAME_SLUG_CATEGORY_CHECKS : List ((List Char → Bool) × String) := [
  (subAny ["search", "retriev", "rag"], "search"),
  (subAny ["secur", "auth"], "security"),
  (subAny ["financ", "bank", "trade", "crypto"], "finance"),
  (subAny ["travel", "flight", "hotel", "trip"], "travel"),
  (subAny ["media", "image", "video", "audio"], "media-content"),
  (subAny ["code", "coding", "dev"], "code-generation"),
  (subAny ["data", "analy"], "data-analytics"),
  (subAny ["chat", "convers"], "conversational"),
  (fun s => containsL "orchestrat".data s || opt1 "multi" "agent" s, "orchestration"),
  (subAny ["deploy", "infra", "devops", "docker", "k8s"], "infrastructure")]

/-- Model of the source check: the literal `Lifie` occurs in the provider
name or the literal `lifie` occurs in the provider url, and the
raw tag list contains `business` or `commerce`. -/
def is_lifie_business_agent (a : Agent) : Bool :=
  (containsL "Lifie".data ((getProvider a).name.getD "").data ||
    containsL "lifie".data ((getProvider a).url.getD "").data) &&
  (decide ("business" ∈ getTags a) || decide ("commerce" ∈ getTags a))

/-- Model of the Python set of lowercased tags. -/
def catTagSet (a : Agent) : List String := ((getTags a).map strLower).dedup

/-- Rule 1: tag-based category rules, weight `3 * matches`. -/
def tagCatContribs (tagSet : List String) : List (String × Nat) :=
  TAG_CATEGORY_RULES.filterMap fun r =>
    if r.2.2 ≤ (tagSet.filter fun t => decide (t ∈ r.1)).length then
      some (r.2.1, 3 * (tagSet.filter fun t => decide (t ∈ r.1)).length)
    else none

/-- Rule 2: description patterns, weight 2. -/
def descCatContribs (desc : String) : List (String × Nat) :=
  DESC_CATEGORY_PATTERNS.filterMap fun pm =>
    if pm.1 (lowerL desc.data) then some (pm.2, 2) else none

/-- Rule 3: skill tags against the same tag rules, flat weight 2. -/
def skillCatContribs (skills : List Skill) : List (String × Nat) :=
  skills.flatMap fun sk =>
    TAG_CATEGORY_RULES.filterMap fun r =>
      if r.2.2 ≤
          ((((getSkillTags sk).map strLower).dedup).filter fun t => decide (t ∈ r.1)).length
        then some (r.2.1, 2)
      else none

/-- The lowercased name and slug joined by a space. -/
def catCombined (a : Agent) : List Char :=
  lowerL (getName a).data ++ ' ' :: lowerL (getSlug a).data

/-- Rule 4: name/slug keyword families, weight 1. -/
def nameSlugCatContribs (combined : List Char) : List (String × Nat) :=
  NAME_SLUG_CATEGORY_CHECKS.filterMap fun pm =>
    if pm.1 combined then some (pm.2, 1) else none

/-- Official-sample tag bonus, weight 2. -/
def officialSampleCatContribs (tagSet : List String) : List (String × Nat) :=
  if "official-sample" ∈ tagSet then [("utility", 2)] else []

/-- Name/slug template battery, weight 2. -/
def templateCatContribs (combined : List Char) : List (String × Nat) :=
  if subAny ["template", "sample", "demo", "starter", "scaffold", "boilerplate"] combined
      || opt1 "hello" "world" combined
    then [("utility", 2)]
  else []

def catContribs (a : Agent) : List (String × Nat) :=
  tagCatContribs (catTagSet a) ++ descCatContribs (getDesc a) ++
  skillCatContribs (getSkills a) ++ nameSlugCatContribs (catCombined a) ++
  officialSampleCatContribs (catTagSet a) ++ templateCatContribs (catCombined a)

def catTally (a : Agent) : Tally := mkTally (catContribs a)

/-- Confidence gate of `infer_category`: empty check, acceptance floor 2,
no tie rejection. -/
def gateCat (t : Tally) : Option String :=
  match mostCommon1 t with
  | none => none
  | some (l, s) => if s < 2 then none else some l

def infer_category (a : Agent) : Option String :=
  if is_lifie_business_agent a then some "enterprise"
  else gateCat (catTally a)

/-! ### Framework inference -/

/-- Text patterns for frameworks, compiled with `re.IGNORECASE` in the source
(text passed lowercased).  Optional separators `[- ]?` are expanded into the
finite alternation of their literal instances. -/
def FRAMEWORK_DETECTION : List ((List Char → Bool) × String) := [
  (wordAny ["googleadk", "google-adk", "google adk",
    "agentdevelopmentkit", "agentdevelopment-kit", "agentdevelopment kit",
    "agent-developmentkit", "agent-development-kit", "agent-development kit",
    "agent developmentkit", "agent development-kit", "agent development kit"],
    "google-adk"),
  (word "adk", "google-adk"),
  (word "langgraph", "langgraph"),
  (word "langchain", "langchain"),
  (word "crewai", "crewai"),
  (wordAny ["crewai", "crew-ai", "crew ai"], "crewai"),
  (wordAny ["springboot", "spring-boot", "spring boot"], "spring-boot"),
  (wordAny ["springai", "spring-ai", "spring ai"], "spring-boot"),
  (word "springframework", "spring-boot"),
  (word "springboot", "spring-boot"),
  (word "autogen", "autogen"),
  (word "ag2", "autogen"),
  (wordAny ["semantickernel", "semantic-kernel", "semantic kernel"], "semantic-kernel"),
  (wordAny ["llamaindex", "llama-index", "llama index"], "llamaindex"),
  (word "llamaindex", "llamaindex"),
  (word "fastapi", "fastapi"),
  (word "nestjs", "nestjs"),
  (word "genkit", "genkit"),
  (wordAny ["openaiagent", "openaiagents", "openai-agent", "openai-agents",
    "openai agent", "openai agents"], "openai-agents"),
  (wordAny ["openaiagentsdk", "openaiagent-sdk", "openaiagent sdk",
    "openai-agentsdk", "openai-agent-sdk", "openai-agent sdk",
    "openai agentsdk", "openai agent-sdk", "openai agent sdk"], "openai-agents"),
  (wordAny ["pydanticai", "pydantic-ai", "pydantic ai"], "pydantic-ai"),
  (wordAny ["strandsagent", "strandsagents", "strands-agent", "strands-agents",
    "strands agent", "strands agents"], "strands-agents")]

def TAG_TO_FRAMEWORK : List (String × String) := [
  ("adk", "google-adk"), ("adk-google", "google-adk"), ("adk-python", "google-adk"),
  ("google-adk", "google-adk"),
  ("langgraph", "langgraph"), ("langchain", "langchain"),
  ("crewai", "crewai"), ("crew-ai", "crewai"),
  ("spring", "spring-boot"), ("spring-boot", "spring-boot"),
  ("springboot", "spring-boot"), ("springboot3", "spring-boot"),
  ("springframework", "spring-boot"), ("spring-ai", "spring-boot"),
  ("autogen", "autogen"), ("ag2", "autogen"),
  ("semantic-kernel", "semantic-kernel"),
  ("llamaindex", "llamaindex"), ("llama-index", "llamaindex"),
  ("fastapi", "fastapi"), ("nestjs", "nestjs"), ("genkit", "genkit"),
  ("openai-agents-sdk", "openai-agents"), ("openai-agent-sdk", "openai-agents"),
  ("openai-agents", "openai-agents"),
  ("pydantic-ai", "pydantic-ai"),
  ("strands-agents", "strands-agents"), ("strands", "strands-agents")]

/-- Name, slug, description and repository joined by spaces. -/
def fwAllText (a : Agent) : String :=
  getName a ++ " " ++ getSlug a ++ " " ++ getDesc a ++ " " ++ getRepo a

/-- Rule 1: case-folded tag lookup, weight 3 per tag. -/
def tagFwContribs (tags : List String) : List (String × Nat) :=
  tags.filterMap fun t => (alookup TAG_TO_FRAMEWORK (strLower t)).map fun fw => (fw, 3)

/-- Rule 2: text patterns over the combined text, weight 2. -/
def textFwContribs (allText : String) : List (String × Nat) :=
  FRAMEWORK_DETECTION.filterMap fun pm =>
    if pm.1 (lowerL allText.data) then some (pm.2, 2) else none

def afterLastColon (l : List Char) : List Char :=
  (l.reverse.takeWhile fun c => c != ':').reverse

/-- Python `str.strip()` over the whitespace class. -/
def trimWS (l : List Char) : List Char :=
  ((l.dropWhile isWS).reverse.dropWhile isWS).reverse

/-- Model of the sample-name parse: the text after the last colon, stripped
and lowercased, or empty when the description has no colon. -/
def fwSampleName (desc : String) : List Char :=
  if ':' ∈ desc.data then lowerL (trimWS (afterLastColon desc.data)) else []

/-- Rule 3: official-sample parsing, weight 4, guarded by
`"Official A2A" in desc` (substring containment). -/
def officialFwContribs (desc : String) : List (String × Nat) :=
  if containsL "Official A2A".data desc.data then
    FRAMEWORK_DETECTION.filterMap fun pm =>
      if pm.1 (fwSampleName desc) then some (pm.2, 4) else none
  else []

def ADK_TAGS : List String := ["adk", "adk-google", "adk-python", "google-adk"]

/-- Test whether some raw tag case-folds to one of the four adk tags. -/
def hasAdkTag (tags : List String) : Bool := tags.any fun t => decide (strLower t ∈ ADK_TAGS)

def fwContribs (a : Agent) : List (String × Nat) :=
  tagFwContribs (getTags a) ++ textFwContribs (fwAllText a) ++
  officialFwContribs (getDesc a)

def fwTally (a : Agent) : Tally := mkTally (fwContribs a)

/-- Confidence gate of `infer_framework`: empty check, acceptance floor 2,
then the `google-adk` corroboration veto below score 3.  Unlike
`infer_language`, the source has no tie-rejection check here: an
equally-supported top pair is resolved by `most_common` toward the
first-inserted candidate. -/
def gateFw (t : Tally) (tags : List String) : Option String :=
  match mostCommon1 t with
  | none => none
  | some (l, s) =>
      if s < 2 then none
      else if l = "google-adk" ∧ s < 3 then
        if hasAdkTag tags then some l else none
      else some l

def infer_framework (a : Agent) : Option String := gateFw (fwTally a) (getTags a)

/-! ### Orchestration driver (per record)

The per-record body of `enrich_agents`: each axis is inferred only when the
current value equals the sentinel, and the record is updated in place between
axes exactly as the source mutates the JSON object. -/

def stepLanguage (a : Agent) : Agent :=
  if a.language = some "unknown" then
    match infer_language a with
    | some l => { a with language := some l }
    | none => a
  else a

def stepCategory (a : Agent) : Agent :=
  if a.category = some "general" then
    match infer_category a with
    | some c => { a with category := some c }
    | none => a
  else a

def stepFramework (a : Agent) : Agent :=
  if a.framework = some "custom" then
    match infer_framework a with
    | some f => { a with framework := some f }
    | none => a
  else a

/-- One loop iteration of `enrich_agents` on a single record: the record is
mutated in place between the three axis updates. -/
def enrichStep (a : Agent) : Agent := stepFramework (stepCategory (stepLanguage a))

/-! ### Auxiliary definitions and concrete records used by the theorems -/

def keys (t : Tally) : List String := t.map Prod.fst

/-- Record tagged `go` and `rust` only (tie example of the spec). -/
def goRustAgent : Agent := { tags := some ["go", "rust"] }

/-- Record tagged `crewai` and `langgraph` only (framework-axis tie). -/
def crewLangGraphAgent : Agent := { tags := some ["crewai", "langgraph"] }

/-- Record with every axis already resolved. -/
def resolvedAgent : Agent :=
  { language := some "python", category := some "search", framework := some "crewai" }

/-- Record with all fields absent. -/
def emptyAgent : Agent := {}

/-- Provider name containing the organization marker only up to case. -/
def lifieCaseAgent : Agent :=
  { provider := some { name := some "LIFIE AI" },
    tags := some ["business", "search", "rag", "web-search", "google-search",
      "semantic-search"] }

/-- The spec example: provider `Lifie AI`, tag `business`, conflicting
description keywords. -/
def lifieAgent : Agent :=
  { provider := some { name := some "Lifie AI" }, tags := some ["business"],
    description := some "search search search" }

/-- Only signal: the bare acronym `adk` in the description (weight 2). -/
def adkDescAgent : Agent := { description := some "An adk agent" }

/-- Description carrying the official marker only mid-text. -/
def midMarkerAgent : Agent :=
  { description := some "Uses LangGraph. Official A2A docs: Crewai",
    tags := some ["langgraph"] }

/-- Official Crewai sample description plus six spring-pointing tags. -/
def springCrewaiAgent : Agent :=
  { description := some "Official A2A python sample agent: Crewai",
    tags := some ["spring", "spring-boot", "springboot", "springboot3",
      "springframework", "spring-ai"] }

/-- Official Crewai sample description with no tags. -/
def officialCrewaiAgent : Agent :=
  { description := some "Official A2A python sample agent: Crewai" }

/-- The end-to-end scenario record of the spec. -/
def pythonFastapiAgent : Agent :=
  { language := some "unknown", tags := some ["python", "fastapi"] }

/-- Record with the single tag `business`. -/
def businessAgent : Agent := { tags := some ["business"] }

/-- Record whose repository is not a github URL. -/
def gitlabAgent : Agent := { repository := some "https://gitlab.com/foo/bar" }

/-! ### Tally lemmas -/

theorem wsum_nil (l : String) : wsum [] l = 0 := rfl

theorem wsum_cons (p : String × Nat) (xs : List (String × Nat)) (l : String) :
    wsum (p :: xs) l = (if p.1 = l then p.2 else 0) + wsum xs l := by
  simp [wsum]

theorem wsum_append (xs ys : List (String × Nat)) (l : String) :
    wsum (xs ++ ys) l = wsum xs l + wsum ys l := by
  simp [wsum]

theorem wsum_singleton (l x : String) (w : Nat) :
    wsum [(l, w)] x = if l = x then w else 0 := by
  simp [wsum]

theorem wsum_addTo (t : Tally) (l x : String) (w : Nat) :
    wsum (addTo t l w) x = wsum t x + (if l = x then w else 0) := by
  induction t with
  | nil => by_cases h : l = x <;> simp [addTo, wsum_cons, wsum_nil, h]
  | cons p ps ih =>
    obtain ⟨pl, pw⟩ := p
    by_cases h : pl = l
    · subst h
      rw [show addTo ((pl, pw) :: ps) pl w = (pl, pw + w) :: ps from by simp [addTo]]
      rw [wsum_cons, wsum_cons]
      by_cases hx : pl = x
      · rw [if_pos hx, if_pos hx, if_pos hx]
        omega
      · rw [if_neg hx, if_neg hx, if_neg hx]
        omega
    · rw [show addTo ((pl, pw) :: ps) l w = (pl, pw) :: addTo ps l w from by simp [addTo, h]]
      rw [wsum_cons, wsum_cons, ih]
      omega

theorem wsum_foldl (xs : List (String × Nat)) (t : Tally) (l : String) :
    wsum (xs.foldl (fun t p => addTo t p.1 p.2) t) l = wsum t l + wsum xs l := by
  induction xs generalizing t with
  | nil => simp [wsum_nil]
  | cons p ps ih => rw [List.foldl_cons, ih, wsum_addTo, wsum_cons]; omega

theorem wsum_mkTally (xs : List (String × Nat)) (l : String) :
    wsum (mkTally xs) l = wsum xs l := by
  rw [mkTally, wsum_foldl, wsum_nil, Nat.zero_add]

theorem mem_keys_addTo (t : Tally) (l x : String) (w : Nat) :
    x ∈ keys (addTo t l w) ↔ x ∈ keys t ∨ x = l := by
  induction t with
  | nil => simp [addTo, keys]
  | cons p ps ih =>
    obtain ⟨pl, pw⟩ := p
    by_cases h : pl = l
    · subst h
      simp [addTo, keys]
      tauto
    · simp only [addTo, if_neg h, keys, List.map_cons, List.mem_cons] at *
      rw [ih]
      tauto

theorem nodupKeys_addTo (t : Tally) (l : String) (w : Nat)
    (h : (keys t).Nodup) : (keys (addTo t l w)).Nodup := by
  induction t with
  | nil => simp [addTo, keys]
  | cons p ps ih =>
    obtain ⟨pl, pw⟩ := p
    simp only [keys, List.map_cons, List.nodup_cons] at h
    by_cases hc : pl = l
    · subst hc
      simpa [addTo, keys] using h
    · simp only [addTo, if_neg hc, keys, List.map_cons, List.nodup_cons]
      refine ⟨fun hm => ?_, ih h.2⟩
      rcases (mem_keys_addTo ps l pl w).mp hm with hm | hm
      · exact h.1 hm
      · exact hc hm

theorem nodupKeys_foldl (xs : List (String × Nat)) (t : Tally)
    (h : (keys t).Nodup) :
    (keys (xs.foldl (fun t p => addTo t p.1 p.2) t)).Nodup := by
  induction xs generalizing t with
  | nil => exact h
  | cons p ps ih => exact ih _ (nodupKeys_addTo _ _ _ h)

theorem nodupKeys_mkTally (xs : List (String × Nat)) : (keys (mkTally xs)).Nodup :=
  nodupKeys_foldl xs [] (by simp [keys])

theorem mem_keys_foldl (xs : List (String × Nat)) (t : Tally) (x : String)
    (h : x ∈ keys (xs.foldl (fun t p => addTo t p.1 p.2) t)) :
    x ∈ keys t ∨ x ∈ xs.map Prod.fst := by
  induction xs generalizing t with
  | nil => exact Or.inl h
  | cons p ps ih =>
    rcases ih _ h with hm | hm
    · rcases (mem_keys_addTo t p.1 x p.2).mp hm with hm | hm
      · exact Or.inl hm
      · exact Or.inr (by simp [hm])
    · exact Or.inr (by simp [hm])

theorem mem_keys_mkTally (xs : List (String × Nat)) (x : String)
    (h : x ∈ keys (mkTally xs)) : x ∈ xs.map Prod.fst := by
  rcases mem_keys_foldl xs [] x h with hm | hm
  · simp [keys] at hm
  · exact hm

theorem wsum_eq_zero_of_not_mem (t : Tally) (l : String) (h : l ∉ keys t) :
    wsum t l = 0 := by
  induction t with
  | nil => rfl
  | cons p ps ih =>
    simp only [keys, List.map_cons, List.mem_cons, not_or] at h
    rw [wsum_cons, if_neg (fun hc => h.1 hc.symm), ih (by simpa [keys] using h.2)]

theorem wsum_of_mem (t : Tally) (l : String) (w : Nat)
    (hn : (keys t).Nodup) (h : (l, w) ∈ t) : wsum t l = w := by
  induction t with
  | nil => simp at h
  | cons p ps ih =>
    simp only [keys, List.map_cons, List.nodup_cons] at hn
    rcases List.mem_cons.mp h with heq | hmem
    · have h1 : p.1 = l := by rw [← heq]
      have h2 : p.2 = w := by rw [← heq]
      have hnot : l ∉ keys ps := by rw [← h1]; exact hn.1
      rw [wsum_cons, if_pos h1, wsum_eq_zero_of_not_mem ps l hnot]
      omega
    · have hne : p.1 ≠ l := by
        intro hc
        apply hn.1
        rw [hc]
        exact List.mem_map_of_mem Prod.fst hmem
      rw [wsum_cons, if_neg hne, ih hn.2 hmem, Nat.zero_add]

theorem mem_of_wsum_ne (t : Tally) (l : String)
    (hn : (keys t).Nodup) (h : wsum t l ≠ 0) : (l, wsum t l) ∈ t := by
  have hm : l ∈ keys t := by
    by_contra hc
    exact h (wsum_eq_zero_of_not_mem t l hc)
  obtain ⟨p, hp, hpl⟩ := List.mem_map.mp hm
  have hpv : (l, p.2) ∈ t := by
    have : p = (l, p.2) := by
      rw [← hpl]
    exact this ▸ hp
  rw [wsum_of_mem t l p.2 hn hpv]
  exact hpv

theorem le_maxScore_of_mem (t : Tally) (p : String × Nat) (h : p ∈ t) :
    p.2 ≤ maxScore t := by
  induction t with
  | nil => simp at h
  | cons q ps ih =>
    rcases List.mem_cons.mp h with heq | hmem
    · simp [maxScore, ← heq]
    · simp only [maxScore, List.map_cons, List.foldr_cons]
      exact le_trans (ih hmem) (Nat.le_max_right _ _)

theorem maxScore_le (t : Tally) (m : Nat) (h : ∀ q ∈ t, q.2 ≤ m) :
    maxScore t ≤ m := by
  induction t with
  | nil => simp [maxScore]
  | cons q ps ih =>
    simp only [maxScore, List.map_cons, List.foldr_cons]
    exact Nat.max_le.mpr ⟨h q (by simp), ih fun r hr => h r (by simp [hr])⟩

theorem wsum_le_maxScore (t : Tally) (l : String) (hn : (keys t).Nodup) :
    wsum t l ≤ maxScore t := by
  by_cases h : wsum t l = 0
  · omega
  · exact le_maxScore_of_mem t (l, wsum t l) (mem_of_wsum_ne t l hn h)

theorem mostCommon1_eq_none (t : Tally) : mostCommon1 t = none ↔ t = [] := by
  cases t with
  | nil => simp [mostCommon1]
  | cons p ps =>
    simp only [List.cons_ne_nil, iff_false]
    intro h
    cases hq : mostCommon1 ps with
    | none =>
      simp only [mostCommon1, hq] at h
      exact Option.noConfusion h
    | some q =>
      simp only [mostCommon1, hq] at h
      by_cases hgt : q.2 > p.2
      · rw [if_pos hgt] at h
        exact Option.noConfusion h
      · rw [if_neg hgt] at h
        exact Option.noConfusion h

theorem mostCommon1_mem (t : Tally) (p : String × Nat)
    (h : mostCommon1 t = some p) : p ∈ t := by
  induction t with
  | nil => simp [mostCommon1] at h
  | cons q ps ih =>
    cases hm : mostCommon1 ps with
    | none =>
      simp only [mostCommon1, hm] at h
      exact List.mem_cons.mpr (Or.inl (Option.some_inj.mp h).symm)
    | some r =>
      simp only [mostCommon1, hm] at h
      by_cases hgt : r.2 > q.2
      · rw [if_pos hgt] at h
        refine List.mem_cons.mpr (Or.inr (ih ?_))
        rw [hm, Option.some_inj.mp h]
      · rw [if_neg hgt] at h
        exact List.mem_cons.mpr (Or.inl (Option.some_inj.mp h).symm)

theorem mostCommon1_ub (t : Tally) (p : String × Nat)
    (h : mostCommon1 t = some p) : ∀ q ∈ t, q.2 ≤ p.2 := by
  induction t generalizing p with
  | nil => simp
  | cons q ps ih =>
    intro r hr
    cases hm : mostCommon1 ps with
    | none =>
      have hps : ps = [] := (mostCommon1_eq_none ps).mp hm
      subst hps
      simp only [mostCommon1] at h
      have hp : q = p := Option.some_inj.mp h
      rcases List.mem_cons.mp hr with heq | hmem
      · rw [heq, ← hp]
      · simp at hmem
    | some s =>
      simp only [mostCommon1, hm] at h
      by_cases hgt : s.2 > q.2
      · rw [if_pos hgt] at h
        have hp : s = p := Option.some_inj.mp h
        rcases List.mem_cons.mp hr with heq | hmem
        · rw [heq, ← hp]; omega
        · exact hp ▸ ih s hm r hmem
      · rw [if_neg hgt] at h
        have hp : q = p := Option.some_inj.mp h
        rcases List.mem_cons.mp hr with heq | hmem
        · rw [heq, ← hp]
        · refine le_trans (ih s hm r hmem) ?_
          rw [← hp]
          omega

theorem mostCommon1_maxScore (t : Tally) (p : String × Nat)
    (h : mostCommon1 t = some p) : maxScore t = p.2 :=
  le_antisymm (maxScore_le t p.2 (mostCommon1_ub t p h))
    (le_maxScore_of_mem t p (mostCommon1_mem t p h))

theorem mostCommon1_of_strict (t : Tally) (l : String) (w : Nat)
    (hn : (keys t).Nodup) (hm : (l, w) ∈ t)
    (hs : ∀ q ∈ t, q.1 ≠ l → q.2 < w) : mostCommon1 t = some (l, w) := by
  induction t with
  | nil => simp at hm
  | cons p ps ih =>
    simp only [keys, List.map_cons, List.nodup_cons] at hn
    rcases List.mem_cons.mp hm with heq | hmem
    · have hlp : p.1 = l := by rw [← heq]
      have hwp : p.2 = w := by rw [← heq]
      cases hq : mostCommon1 ps with
      | none =>
        simp only [mostCommon1, hq]
        rw [← heq]
      | some q =>
        have hqm := mostCommon1_mem ps q hq
        have hq1 : q.1 ≠ l := by
          intro hc
          apply hn.1
          rw [hlp, ← hc]
          exact List.mem_map_of_mem Prod.fst hqm
        have hlt := hs q (List.mem_cons_of_mem _ hqm) hq1
        simp only [mostCommon1, hq]
        rw [if_neg (by omega : ¬q.2 > p.2), ← heq]
    · have hl : l ∈ keys ps := List.mem_map_of_mem Prod.fst hmem
      have hpl : p.1 ≠ l := by
        intro hc
        apply hn.1
        rw [hc]
        exact hl
      have hpw : p.2 < w := hs p (List.mem_cons_self p ps) hpl
      have hrec := ih hn.2 hmem fun q hq hql => hs q (List.mem_cons_of_mem _ hq) hql
      simp only [mostCommon1, hrec]
      rw [if_pos (by simpa using hpw : (l, w).2 > p.2)]

theorem countP_ge_two {α : Type} (pr : α → Bool) (t : List α) (p q : α)
    (hp : p ∈ t) (hq : q ∈ t) (hne : p ≠ q) (hpp : pr p = true) (hpq : pr q = true) :
    2 ≤ t.countP pr := by
  induction t with
  | nil => simp at hp
  | cons a t ih =>
    rw [List.countP_cons]
    by_cases hpa : p = a
    · subst hpa
      have hq2 : q ∈ t := (List.mem_cons.mp hq).resolve_left fun h => hne h.symm
      have h1 : 0 < t.countP pr := List.countP_pos_iff.mpr ⟨q, hq2, hpq⟩
      rw [hpp, if_pos rfl]
      omega
    · by_cases hqa : q = a
      · subst hqa
        have hp2 : p ∈ t := (List.mem_cons.mp hp).resolve_left hpa
        have h1 : 0 < t.countP pr := List.countP_pos_iff.mpr ⟨p, hp2, hpp⟩
        rw [hpq, if_pos rfl]
        omega
      · have hp2 : p ∈ t := (List.mem_cons.mp hp).resolve_left hpa
        have hq2 : q ∈ t := (List.mem_cons.mp hq).resolve_left hqa
        have := ih hp2 hq2
        omega

theorem hasTie_of_pair (t : Tally) (l1 l2 : String) (s : Nat)
    (h1 : (l1, s) ∈ t) (h2 : (l2, s) ∈ t) (hne : l1 ≠ l2) (hs : maxScore t = s) :
    hasTie t = true := by
  unfold hasTie topTieCount
  apply decide_eq_true
  exact countP_ge_two _ t (l1, s) (l2, s) h1 h2
    (fun h => hne (congrArg Prod.fst h)) (by simp [hs]) (by simp [hs])

theorem countP_eq_one_of_strict (t : Tally) (l : String) (w : Nat)
    (hn : (keys t).Nodup) (hm : (l, w) ∈ t)
    (hs : ∀ q ∈ t, q.1 ≠ l → q.2 < w) :
    (t.countP fun p => p.2 == w) = 1 := by
  induction t with
  | nil => simp at hm
  | cons p ps ih =>
    simp only [keys, List.map_cons, List.nodup_cons] at hn
    rw [List.countP_cons]
    rcases List.mem_cons.mp hm with heq | hmem
    · have hlp : p.1 = l := by rw [← heq]
      have hwp : p.2 = w := by rw [← heq]
      have hzero : (ps.countP fun p => p.2 == w) = 0 := by
        rw [List.countP_eq_zero]
        intro q hq
        have hq1 : q.1 ≠ l := by
          intro hc
          apply hn.1
          rw [hlp, ← hc]
          exact List.mem_map_of_mem Prod.fst hq
        have := hs q (List.mem_cons_of_mem _ hq) hq1
        simp only [beq_iff_eq]
        omega
      rw [hzero]
      simp [hwp]
    · have hl : l ∈ keys ps := List.mem_map_of_mem Prod.fst hmem
      have hpl : p.1 ≠ l := by
        intro hc
        apply hn.1
        rw [hc]
        exact hl
      have hpw : p.2 < w := hs p (List.mem_cons_self p ps) hpl
      rw [ih hn.2 hmem fun q hq hql => hs q (List.mem_cons_of_mem _ hq) hql]
      simp only [beq_iff_eq]
      rw [if_neg (by omega)]

theorem hasTie_false_of_strict (t : Tally) (l : String) (w : Nat)
    (hn : (keys t).Nodup) (hm : (l, w) ∈ t)
    (hs : ∀ q ∈ t, q.1 ≠ l → q.2 < w) : hasTie t = false := by
  have hmax : maxScore t = w := by
    refine le_antisymm (maxScore_le t w fun q hq => ?_) (le_maxScore_of_mem t (l, w) hm)
    by_cases hql : q.1 = l
    · have h1 : wsum t q.1 = q.2 := wsum_of_mem t q.1 q.2 hn (by simpa using hq)
      have h2 : wsum t l = w := wsum_of_mem t l w hn hm
      rw [hql] at h1
      omega
    · exact le_of_lt (hs q hq hql)
  unfold hasTie topTieCount
  rw [hmax]
  simp [countP_eq_one_of_strict t l w hn hm hs]

theorem le_wsum_of_mem (xs : List (String × Nat)) (l : String) (w : Nat)
    (h : (l, w) ∈ xs) : w ≤ wsum xs l := by
  induction xs with
  | nil => simp at h
  | cons p ps ih =>
    rw [wsum_cons]
    rcases List.mem_cons.mp h with heq | hmem
    · have h1 : p.1 = l := by rw [← heq]
      have h2 : p.2 = w := by rw [← heq]
      rw [if_pos h1]
      omega
    · have := ih hmem
      by_cases hc : p.1 = l <;> [rw [if_pos hc]; rw [if_neg hc]] <;> omega

/-! ### Gate lemmas -/

theorem gateLang_none_of_low (t : Tally) (h : maxScore t < 2) : gateLang t = none := by
  cases hm : mostCommon1 t with
  | none => simp [gateLang, hm]
  | some p =>
    obtain ⟨l, s⟩ := p
    have hms := mostCommon1_maxScore t (l, s) hm
    simp only [gateLang, hm]
    rw [if_pos (by simp at hms; omega)]

theorem gateCat_none_of_low (t : Tally) (h : maxScore t < 2) : gateCat t = none := by
  cases hm : mostCommon1 t with
  | none => simp [gateCat, hm]
  | some p =>
    obtain ⟨l, s⟩ := p
    have hms := mostCommon1_maxScore t (l, s) hm
    simp only [gateCat, hm]
    rw [if_pos (by simp at hms; omega)]

theorem gateFw_none_of_low (t : Tally) (tags : List String) (h : maxScore t < 2) :
    gateFw t tags = none := by
  cases hm : mostCommon1 t with
  | none => simp [gateFw, hm]
  | some p =>
    obtain ⟨l, s⟩ := p
    have hms := mostCommon1_maxScore t (l, s) hm
    simp only [gateFw, hm]
    rw [if_pos (by simp at hms; omega)]

theorem gateLang_none_of_pair (t : Tally) (l1 l2 : String) (s : Nat)
    (h1 : (l1, s) ∈ t) (h2 : (l2, s) ∈ t) (hne : l1 ≠ l2)
    (hub : ∀ q ∈ t, q.2 ≤ s) : gateLang t = none := by
  cases hm : mostCommon1 t with
  | none => simp [gateLang, hm]
  | some p =>
    obtain ⟨l, s0⟩ := p
    have hs0 : s0 = s :=
      le_antisymm (hub _ (mostCommon1_mem t _ hm)) (mostCommon1_ub t _ hm (l1, s) h1)
    have hmax : maxScore t = s := by
      rw [mostCommon1_maxScore t _ hm]
      exact hs0
    have htie : hasTie t = true := hasTie_of_pair t l1 l2 s h1 h2 hne hmax
    simp only [gateLang, hm]
    by_cases hlow : s0 < 2
    · rw [if_pos hlow]
    · rw [if_neg hlow, if_pos htie]

/-! ### Driver lemmas -/

theorem infer_category_set_language (a : Agent) (x : Option String) :
    infer_category { a with language := x } = infer_category a := rfl

theorem infer_framework_set_language (a : Agent) (x : Option String) :
    infer_framework { a with language := x } = infer_framework a := rfl

theorem infer_framework_set_category (a : Agent) (x : Option String) :
    infer_framework { a with category := x } = infer_framework a := rfl

theorem stepLanguage_category (a : Agent) : (stepLanguage a).category = a.category := by
  unfold stepLanguage
  by_cases h : a.language = some "unknown"
  · rw [if_pos h]
    cases infer_language a <;> rfl
  · rw [if_neg h]

theorem stepLanguage_framework (a : Agent) : (stepLanguage a).framework = a.framework := by
  unfold stepLanguage
  by_cases h : a.language = some "unknown"
  · rw [if_pos h]
    cases infer_language a <;> rfl
  · rw [if_neg h]

theorem stepCategory_language (a : Agent) : (stepCategory a).language = a.language := by
  unfold stepCategory
  by_cases h : a.category = some "general"
  · rw [if_pos h]
    cases infer_category a <;> rfl
  · rw [if_neg h]

theorem stepCategory_framework (a : Agent) : (stepCategory a).framework = a.framework := by
  unfold stepCategory
  by_cases h : a.category = some "general"
  · rw [if_pos h]
    cases infer_category a <;> rfl
  · rw [if_neg h]

theorem stepFramework_language (a : Agent) : (stepFramework a).language = a.language := by
  unfold stepFramework
  by_cases h : a.framework = some "custom"
  · rw [if_pos h]
    cases infer_framework a <;> rfl
  · rw [if_neg h]

theorem stepFramework_category (a : Agent) : (stepFramework a).category = a.category := by
  unfold stepFramework
  by_cases h : a.framework = some "custom"
  · rw [if_pos h]
    cases infer_framework a <;> rfl
  · rw [if_neg h]

theorem stepLanguage_of_ne (a : Agent) (h : a.language ≠ some "unknown") :
    stepLanguage a = a := if_neg h

theorem stepCategory_of_ne (a : Agent) (h : a.category ≠ some "general") :
    stepCategory a = a := if_neg h

theorem stepFramework_of_ne (a : Agent) (h : a.framework ≠ some "custom") :
    stepFramework a = a := if_neg h

theorem stepLanguage_of_none (a : Agent) (h : infer_language a = none) :
    stepLanguage a = a := by
  unfold stepLanguage
  rw [h]
  by_cases hc : a.language = some "unknown"
  · rw [if_pos hc]
  · rw [if_neg hc]

theorem stepCategory_of_none (a : Agent) (h : infer_category a = none) :
    stepCategory a = a := by
  unfold stepCategory
  rw [h]
  by_cases hc : a.category = some "general"
  · rw [if_pos hc]
  · rw [if_neg hc]

theorem stepFramework_of_none (a : Agent) (h : infer_framework a = none) :
    stepFramework a = a := by
  unfold stepFramework
  rw [h]
  by_cases hc : a.framework = some "custom"
  · rw [if_pos hc]
  · rw [if_neg hc]

theorem infer_category_stepLanguage (a : Agent) :
    infer_category (stepLanguage a) = infer_category a := by
  unfold stepLanguage
  by_cases h : a.language = some "unknown"
  · rw [if_pos h]
    cases infer_language a with
    | none => rfl
    | some l => exact infer_category_set_language a (some l)
  · rw [if_neg h]

theorem infer_framework_stepLanguage (a : Agent) :
    infer_framework (stepLanguage a) = infer_framework a := by
  unfold stepLanguage
  by_cases h : a.language = some "unknown"
  · rw [if_pos h]
    cases infer_language a with
    | none => rfl
    | some l => exact infer_framework_set_language a (some l)
  · rw [if_neg h]

theorem infer_framework_stepCategory (a : Agent) :
    infer_framework (stepCategory a) = infer_framework a := by
  unfold stepCategory
  by_cases h : a.category = some "general"
  · rw [if_pos h]
    cases infer_category a with
    | none => rfl
    | some c => exact infer_framework_set_category a (some c)
  · rw [if_neg h]

/-! ### Category support lemmas -/

theorem lifie_enterprise_ge (a : Agent) (h : is_lifie_business_agent a = true) :
    3 ≤ wsum (catContribs a) "enterprise" := by
  have htag : "business" ∈ getTags a ∨ "commerce" ∈ getTags a := by
    unfold is_lifie_business_agent at h
    simp only [Bool.and_eq_true, Bool.or_eq_true] at h
    rcases h.2 with h3 | h3
    · exact Or.inl (of_decide_eq_true h3)
    · exact Or.inr (of_decide_eq_true h3)
  have hmem : ∃ tg, tg ∈ catTagSet a ∧ tg ∈ (["business", "commerce"] : List String) := by
    rcases htag with h1 | h1
    · refine ⟨"business", ?_, by decide⟩
      unfold catTagSet
      apply List.mem_dedup.mpr
      have hb : strLower "business" = "business" := by decide
      have := List.mem_map_of_mem strLower h1
      rwa [hb] at this
    · refine ⟨"commerce", ?_, by decide⟩
      unfold catTagSet
      apply List.mem_dedup.mpr
      have hb : strLower "commerce" = "commerce" := by decide
      have := List.mem_map_of_mem strLower h1
      rwa [hb] at this
  have hlen : 1 ≤ ((catTagSet a).filter fun t =>
      decide (t ∈ (["business", "commerce"] : List String))).length := by
    obtain ⟨tg, htg1, htg2⟩ := hmem
    have hmemf : tg ∈ (catTagSet a).filter fun t =>
        decide (t ∈ (["business", "commerce"] : List String)) :=
      List.mem_filter.mpr ⟨htg1, decide_eq_true htg2⟩
    have := List.length_pos.mpr (List.ne_nil_of_mem hmemf)
    omega
  have hcontrib : ("enterprise",
      3 * ((catTagSet a).filter fun t =>
        decide (t ∈ (["business", "commerce"] : List String))).length) ∈
      tagCatContribs (catTagSet a) := by
    apply List.mem_filterMap.mpr
    refine ⟨(["business", "commerce"], "enterprise", 1), by decide, ?_⟩
    rw [if_pos hlen]
  have hle := le_wsum_of_mem _ _ _ hcontrib
  unfold catContribs
  rw [wsum_append, wsum_append, wsum_append, wsum_append, wsum_append]
  omega

theorem catContribs_labels (a : Agent) (p : String × Nat) (h : p ∈ catContribs a) :
    p.1 ∈ INFERRED_CATEGORIES := by
  unfold catContribs at h
  have hrule : ∀ r ∈ TAG_CATEGORY_RULES, r.2.1 ∈ INFERRED_CATEGORIES := by decide
  have hdesc : ∀ pm ∈ DESC_CATEGORY_PATTERNS, pm.2 ∈ INFERRED_CATEGORIES := by decide
  have hns : ∀ pm ∈ NAME_SLUG_CATEGORY_CHECKS, pm.2 ∈ INFERRED_CATEGORIES := by decide
  rcases List.mem_append.mp h with h | h
  rcases List.mem_append.mp h with h | h
  rcases List.mem_append.mp h with h | h
  rcases List.mem_append.mp h with h | h
  rcases List.mem_append.mp h with h | h
  · obtain ⟨r, hr, hf⟩ := List.mem_filterMap.mp h
    by_cases hc : r.2.2 ≤ ((catTagSet a).filter fun t => decide (t ∈ r.1)).length
    · rw [if_pos hc] at hf
      have : p.1 = r.2.1 := by rw [← Option.some_inj.mp hf]
      rw [this]
      exact hrule r hr
    · rw [if_neg hc] at hf
      exact Option.noConfusion hf
  · obtain ⟨pm, hpm, hf⟩ := List.mem_filterMap.mp h
    by_cases hc : pm.1 (lowerL (getDesc a).data) = true
    · rw [if_pos hc] at hf
      have : p.1 = pm.2 := by rw [← Option.some_inj.mp hf]
      rw [this]
      exact hdesc pm hpm
    · rw [if_neg hc] at hf
      exact Option.noConfusion hf
  · obtain ⟨sk, hsk, hmem⟩ := List.mem_flatMap.mp h
    obtain ⟨r, hr, hf⟩ := List.mem_filterMap.mp hmem
    by_cases hc : r.2.2 ≤
        ((((getSkillTags sk).map strLower).dedup).filter fun t => decide (t ∈ r.1)).length
    · rw [if_pos hc] at hf
      have : p.1 = r.2.1 := by rw [← Option.some_inj.mp hf]
      rw [this]
      exact hrule r hr
    · rw [if_neg hc] at hf
      exact Option.noConfusion hf
  · obtain ⟨pm, hpm, hf⟩ := List.mem_filterMap.mp h
    by_cases hc : pm.1 (catCombined a) = true
    · rw [if_pos hc] at hf
      have : p.1 = pm.2 := by rw [← Option.some_inj.mp hf]
      rw [this]
      exact hns pm hpm
    · rw [if_neg hc] at hf
      exact Option.noConfusion hf
  · unfold officialSampleCatContribs at h
    by_cases hc : "official-sample" ∈ catTagSet a
    · rw [if_pos hc] at h
      have : p = ("utility", 2) := by simpa using h
      rw [this]
      decide
    · rw [if_neg hc] at h
      simp at h
  · unfold templateCatContribs at h
    by_cases hc : (subAny ["template", "sample", "demo", "starter", "scaffold",
        "boilerplate"] (catCombined a) || opt1 "hello" "world" (catCombined a)) = true
    · rw [if_pos hc] at h
      have : p = ("utility", 2) := by simpa using h
      rw [this]
      decide
    · rw [if_neg hc] at h
      simp at h

/-! ### Text occurrence lemmas -/

theorem spre_self_append (w r : List Char) : spre w (w ++ r) = true := by
  induction w with
  | nil => rfl
  | cons c cs ih => simp [spre, ih]

theorem contains_of_spre (w s : List Char) (h : spre w s = true) :
    containsL w s = true := by
  cases s with
  | nil => exact h
  | cons c cs => simp [containsL, h]

theorem occAux_of_hitAt (lb rb : Bool) (w : List Char) (prev : Option Char)
    (s : List Char) (h : hitAt lb rb w prev s = true) :
    occAux lb rb w prev s = true := by
  cases s with
  | nil => exact h
  | cons c cs =>
    simp only [occAux]
    rw [h]
    rfl

theorem occAux_tail (w : List Char) (prev : Option Char) (c : Char) (s : List Char)
    (h : occAux true true w (some c) s = true) :
    occAux true true w prev (c :: s) = true := by
  simp only [occAux]
  rw [h]
  simp

theorem occAux_extend (w pre : List Char) (c : Char) (s : List Char) (prev : Option Char)
    (h : occAux true true w (some c) s = true) :
    occAux true true w prev (pre ++ c :: s) = true := by
  induction pre generalizing prev with
  | nil => exact occAux_tail w prev c s h
  | cons b bs ih =>
    rw [List.cons_append]
    exact occAux_tail w prev b (bs ++ c :: s) (ih (some b))

theorem occAux_hit (w r : List Char) (prev : Option Char)
    (h1 : bdry prev w.head? = true) (h2 : bdry w.getLast? r.head? = true) :
    occAux true true w prev (w ++ r) = true := by
  apply occAux_of_hitAt
  unfold hitAt
  rw [spre_self_append, List.drop_left, h1, h2]
  rfl

theorem dropWhile_head_false {α : Type} (p : α → Bool) (l : List α) (c : α) (r : List α)
    (h : l.dropWhile p = c :: r) : p c = false := by
  induction l with
  | nil => simp at h
  | cons a as ih =>
    rw [List.dropWhile_cons] at h
    by_cases hp : p a
    · rw [if_pos hp] at h
      exact ih h
    · rw [if_neg hp] at h
      injection h with h1 h2
      rw [← h1]
      cases hpa : p a with
      | true => exact absurd hpa hp
      | false => rfl

theorem afterLastColon_decomp (l : List Char) (h : ':' ∈ l) :
    ∃ pre, l = pre ++ ':' :: afterLastColon l := by
  have h1 : ':' ∈ l.reverse := List.mem_reverse.mpr h
  cases hd : l.reverse.dropWhile (fun c => c != ':') with
  | nil =>
    exfalso
    have h2 := (List.dropWhile_eq_nil_iff.mp hd) ':' h1
    simp at h2
  | cons c r =>
    have hc : (c != ':') = false :=
      dropWhile_head_false (fun c => c != ':') l.reverse c r hd
    have hcc : c = ':' := by simpa using hc
    have h2 : l.reverse.takeWhile (fun c => c != ':') ++
        l.reverse.dropWhile (fun c => c != ':') = l.reverse :=
      List.takeWhile_append_dropWhile _ _
    refine ⟨r.reverse, ?_⟩
    conv_lhs => rw [← List.reverse_reverse l, ← h2, hd]
    rw [hcc, List.reverse_append, List.reverse_cons]
    unfold afterLastColon
    simp [List.append_assoc]

theorem trimWS_decomp (l : List Char) :
    ∃ w1 w2, l = w1 ++ trimWS l ++ w2 ∧ (∀ c ∈ w1, isWS c = true) ∧
      (∀ c ∈ w2, isWS c = true) := by
  refine ⟨l.takeWhile isWS, ((l.dropWhile isWS).reverse.takeWhile isWS).reverse,
    ?_, ?_, ?_⟩
  · conv_lhs => rw [← List.takeWhile_append_dropWhile isWS l]
    rw [List.append_assoc]
    congr 1
    conv_lhs => rw [← List.reverse_reverse (l.dropWhile isWS),
      ← List.takeWhile_append_dropWhile isWS (l.dropWhile isWS).reverse]
    rw [List.reverse_append]
    rfl
  · intro c hc
    exact List.mem_takeWhile_imp hc
  · intro c hc
    rw [List.mem_reverse] at hc
    exact List.mem_takeWhile_imp hc

theorem isWS_cases (c : Char) (h : isWS c = true) :
    c = ' ' ∨ c = '\t' ∨ c = '\n' ∨ c = '\r' ∨ c = '\x0b' ∨ c = '\x0c' := by
  unfold isWS at h
  simp only [Bool.or_eq_true, beq_iff_eq] at h
  tauto

theorem toLower_of_isWS (c : Char) (h : isWS c = true) : c.toLower = c := by
  rcases isWS_cases c h with h | h | h | h | h | h <;> subst h <;> decide

theorem not_word_of_isWS (c : Char) (h : isWS c = true) : isWordChar c = false := by
  rcases isWS_cases c h with h | h | h | h | h | h <;> subst h <;> decide

theorem lowerL_append (a b : List Char) : lowerL (a ++ b) = lowerL a ++ lowerL b :=
  List.map_append _ _ _

theorem lowerL_cons (c : Char) (l : List Char) :
    lowerL (c :: l) = c.toLower :: lowerL l := rfl

theorem lowerL_ws (l : List Char) (h : ∀ c ∈ l, isWS c = true) : lowerL l = l := by
  induction l with
  | nil => rfl
  | cons c cs ih =>
    rw [lowerL_cons, toLower_of_isWS c (h c (by simp)),
      ih fun d hd => h d (by simp [hd])]

/-- If the sample-name parse of the description yields exactly `crewai`, the
lowercased combined text of `infer_framework` contains `crewai` as a bounded
word, so the generic `crewai` pattern fires. -/
theorem crewai_occurs (a : Agent)
    (hname : fwSampleName (getDesc a) = "crewai".data) :
    occAux true true "crewai".data none (lowerL (fwAllText a).data) = true := by
  by_cases hcolon : ':' ∈ (getDesc a).data
  case neg =>
    exfalso
    rw [fwSampleName, if_neg hcolon] at hname
    exact List.noConfusion hname
  case pos =>
    rw [fwSampleName, if_pos hcolon] at hname
    obtain ⟨pre, hdesc⟩ := afterLastColon_decomp (getDesc a).data hcolon
    obtain ⟨w1, w2, hseg, hw1, hw2⟩ := trimWS_decomp (afterLastColon (getDesc a).data)
    -- lowered description decomposition
    have hdl : lowerL (getDesc a).data =
        lowerL pre ++ ':' :: (lowerL w1 ++ ("crewai".data ++ lowerL w2)) := by
      conv_lhs => rw [hdesc]
      rw [lowerL_append, lowerL_cons, show ':'.toLower = ':' from by decide]
      congr 2
      conv_lhs => rw [hseg]
      rw [lowerL_append, lowerL_append, hname, lowerL_ws w1 hw1, lowerL_ws w2 hw2,
        List.append_assoc]
    -- lowered combined text decomposition
    have hat : lowerL (fwAllText a).data =
        lowerL (getName a).data ++ ' ' :: (lowerL (getSlug a).data ++ ' ' ::
          (lowerL (getDesc a).data ++ ' ' :: lowerL (getRepo a).data)) := by
      show lowerL (getName a ++ " " ++ getSlug a ++ " " ++ getDesc a ++ " " ++
        getRepo a).data = _
      rw [String.data_append, String.data_append, String.data_append,
        String.data_append, String.data_append, String.data_append]
      rw [lowerL_append, lowerL_append, lowerL_append, lowerL_append, lowerL_append,
        lowerL_append]
      rw [show lowerL " ".data = [' '] from by decide]
      simp [List.append_assoc]
    -- the character just before the crewai occurrence
    have hu : (':' :: lowerL w1) ≠ [] := List.cons_ne_nil _ _
    have hc0w : isWordChar ((':' :: lowerL w1).getLast hu) = false := by
      have hc0mem : (':' :: lowerL w1).getLast hu ∈ ':' :: lowerL w1 :=
        List.getLast_mem hu
      rcases List.mem_cons.mp hc0mem with h | h
      · rw [h]
        decide
      · obtain ⟨d, hd, hdl2⟩ := List.mem_map.mp h
        rw [← hdl2, toLower_of_isWS d (hw1 d hd)]
        exact not_word_of_isWS d (hw1 d hd)
    -- re-bracket the colon-and-whitespace run around its last character
    have hsplit : (':' :: (lowerL w1 ++ ("crewai".data ++ lowerL w2)) : List Char) =
        (':' :: lowerL w1).dropLast ++
          ((':' :: lowerL w1).getLast hu) :: ("crewai".data ++ lowerL w2) := by
      have h1 : (':' :: lowerL w1) ++ ("crewai".data ++ lowerL w2) =
          ((':' :: lowerL w1).dropLast ++ [(':' :: lowerL w1).getLast hu]) ++
            ("crewai".data ++ lowerL w2) := by
        rw [List.dropLast_append_getLast hu]
      simpa [List.append_assoc] using h1
    -- the whole lowered text, re-bracketed around the occurrence
    have hfull : lowerL (fwAllText a).data =
        (lowerL (getName a).data ++ ' ' :: (lowerL (getSlug a).data ++ ' ' ::
          (lowerL pre ++ (':' :: lowerL w1).dropLast))) ++
        ((':' :: lowerL w1).getLast hu) ::
          ("crewai".data ++ (lowerL w2 ++ ' ' :: lowerL (getRepo a).data)) := by
      rw [hat, hdl, hsplit]
      simp [List.append_assoc]
    rw [hfull]
    apply occAux_extend
    apply occAux_hit
    · have hw0 : wOpt (some ((':' :: lowerL w1).getLast hu)) = false := hc0w
      unfold bdry
      rw [hw0, show wOpt ("crewai".data.head?) = true from by decide]
      rfl
    · have hhead : wOpt (lowerL w2 ++ ' ' :: lowerL (getRepo a).data).head? = false := by
        cases hw : w2 with
        | nil => rfl
        | cons d ds =>
          rw [lowerL_cons, List.cons_append, List.head?_cons]
          have hd : isWS d = true := hw2 d (by rw [hw]; exact List.mem_cons_self d ds)
          show isWordChar d.toLower = false
          rw [toLower_of_isWS d hd]
          exact not_word_of_isWS d hd
      unfold bdry
      rw [hhead, show wOpt ("crewai".data.getLast?) = true from by decide]
      rfl

/-! ### Framework tally bounds -/

theorem wsum_textFw_le (L : List ((List Char → Bool) × String)) (text : List Char)
    (x : String) :
    wsum (L.filterMap fun pm => if pm.1 text then some (pm.2, 2) else none) x ≤
      (L.map fun pm => if pm.2 = x then (2 : Nat) else 0).sum := by
  induction L with
  | nil => simp [wsum_nil]
  | cons pm L ih =>
    rw [List.map_cons, List.sum_cons]
    by_cases hm : pm.1 text = true
    · have hstep : ((pm :: L).filterMap fun q => if q.1 text then some (q.2, 2)
          else none) = (pm.2, 2) ::
          (L.filterMap fun q => if q.1 text then some (q.2, 2) else none) := by
        rw [List.filterMap_cons, if_pos hm]
      rw [hstep, wsum_cons]
      dsimp only
      omega
    · have hstep : ((pm :: L).filterMap fun q => if q.1 text then some (q.2, 2)
          else none) =
          L.filterMap fun q => if q.1 text then some (q.2, 2) else none := by
        rw [List.filterMap_cons, if_neg hm]
      rw [hstep]
      omega

theorem FD_label_closed : ∀ pm ∈ FRAMEWORK_DETECTION,
    pm.2 ∈ ["google-adk", "langgraph", "langchain", "crewai", "spring-boot",
      "autogen", "semantic-kernel", "llamaindex", "fastapi", "nestjs", "genkit",
      "openai-agents", "pydantic-ai", "strands-agents"] := by
  intro pm hpm
  unfold FRAMEWORK_DETECTION at hpm
  simp only [List.mem_cons, List.not_mem_nil, or_false] at hpm
  rcases hpm with h | h | h | h | h | h | h | h | h | h | h | h | h | h | h | h | h |
      h | h | h | h | h <;> rw [h] <;> decide

theorem FD_text_bound (text : List Char) (x : String) (hx : x ≠ "crewai") :
    wsum (FRAMEWORK_DETECTION.filterMap fun pm =>
      if pm.1 text then some (pm.2, 2) else none) x ≤ 8 := by
  refine le_trans (wsum_textFw_le FRAMEWORK_DETECTION text x) ?_
  by_cases hmem : x ∈ ["google-adk", "langgraph", "langchain", "crewai", "spring-boot",
      "autogen", "semantic-kernel", "llamaindex", "fastapi", "nestjs", "genkit",
      "openai-agents", "pydantic-ai", "strands-agents"]
  · simp only [List.mem_cons, List.not_mem_nil, or_false] at hmem
    rcases hmem with rfl | rfl | rfl | rfl | rfl | rfl | rfl | rfl | rfl | rfl | rfl |
        rfl | rfl | rfl
    all_goals first
      | exact absurd rfl hx
      | decide
  · have hsum : (FRAMEWORK_DETECTION.map fun pm =>
        if pm.2 = x then (2 : Nat) else 0).sum = 0 := by
      apply List.sum_eq_zero
      intro y hy
      obtain ⟨pm, hpm, hpm2⟩ := List.mem_map.mp hy
      rw [← hpm2, if_neg fun hc => hmem (by rw [← hc]; exact FD_label_closed pm hpm)]
    omega

/-! ### Claim theorems -/

/-- C1 as stated is false for the framework axis: `infer_framework` has no
tie-rejection check (only the empty check, the floor of 2 and the google-adk
veto), so on the record tagged `crewai` and `langgraph` — two distinct labels
both at the top score 3 — it returns the first-inserted candidate `crewai`
instead of no decision. -/
theorem C1_tie_rejection_counterexample :
    ("crewai", 3) ∈ fwTally crewLangGraphAgent ∧
    ("langgraph", 3) ∈ fwTally crewLangGraphAgent ∧
    (∀ q ∈ fwTally crewLangGraphAgent, q.2 ≤ 3) ∧
    infer_framework crewLangGraphAgent = some "crewai" := by decide

/-- C1, amended: tie rejection exists on the language axis only — whenever
two distinct candidate labels achieve the identical top score in the language
tally, `infer_language` returns no decision even above the acceptance floor
(in particular the record tagged `go` and `rust` yields `none`) — while the
framework gate resolves an equally-supported top pair toward the
first-inserted candidate, as the record tagged `crewai` and `langgraph`
shows. -/
theorem C1_tie_rejection :
    (∀ (a : Agent) (l1 l2 : String) (s : Nat), l1 ≠ l2 →
      (l1, s) ∈ langTally a → (l2, s) ∈ langTally a →
      (∀ q ∈ langTally a, q.2 ≤ s) → infer_language a = none) ∧
    infer_framework crewLangGraphAgent = some "crewai" := by
  constructor
  · intro a l1 l2 s hne h1 h2 hub
    unfold infer_language
    cases ht : langTally? a with
    | none => rfl
    | some t =>
      have htt : langTally a = t := by simp [langTally, ht]
      rw [htt] at h1 h2 hub
      exact gateLang_none_of_pair t l1 l2 s h1 h2 hne hub
  · decide

theorem C1_tie_rejection_witness :
    infer_language goRustAgent = none ∧
    infer_framework crewLangGraphAgent = some "crewai" := by
  constructor
  · exact C1_tie_rejection.1 goRustAgent "go" "rust" 3
      (by decide) (by decide) (by decide) (by decide)
  · exact C1_tie_rejection.2

/-- C2: inference is gated on the sentinel for each axis: a record whose axis
value differs from the sentinel keeps that value, a `none` inference leaves
the sentinel in place, and a fully resolved record is a fixed point of the
driver step. -/
theorem C2_sentinel_gating (a : Agent) :
    (a.language ≠ some "unknown" → (enrichStep a).language = a.language) ∧
    (a.category ≠ some "general" → (enrichStep a).category = a.category) ∧
    (a.framework ≠ some "custom" → (enrichStep a).framework = a.framework) ∧
    (a.language = some "unknown" → infer_language a = none →
      (enrichStep a).language = some "unknown") ∧
    (a.category = some "general" → infer_category a = none →
      (enrichStep a).category = some "general") ∧
    (a.framework = some "custom" → infer_framework a = none →
      (enrichStep a).framework = some "custom") ∧
    (a.language ≠ some "unknown" → a.category ≠ some "general" →
      a.framework ≠ some "custom" → enrichStep a = a) := by
  refine ⟨fun h1 => ?_, fun h2 => ?_, fun h3 => ?_, fun h1 hi => ?_, fun h2 hi => ?_,
    fun h3 hi => ?_, fun h1 h2 h3 => ?_⟩
  · rw [enrichStep, stepFramework_language, stepCategory_language,
      stepLanguage_of_ne a h1]
  · have hc : (stepLanguage a).category = a.category := stepLanguage_category a
    have hne : (stepLanguage a).category ≠ some "general" := by
      rw [hc]
      exact h2
    rw [enrichStep, stepFramework_category, stepCategory_of_ne _ hne, hc]
  · have hf : (stepCategory (stepLanguage a)).framework = a.framework := by
      rw [stepCategory_framework, stepLanguage_framework]
    have hne : (stepCategory (stepLanguage a)).framework ≠ some "custom" := by
      rw [hf]
      exact h3
    rw [enrichStep, stepFramework_of_ne _ hne, hf]
  · rw [enrichStep, stepFramework_language, stepCategory_language,
      stepLanguage_of_none a hi, h1]
  · have hc : (stepLanguage a).category = a.category := stepLanguage_category a
    have hni : infer_category (stepLanguage a) = none := by
      rw [infer_category_stepLanguage]
      exact hi
    rw [enrichStep, stepFramework_category, stepCategory_of_none _ hni, hc, h2]
  · have hni : infer_framework (stepCategory (stepLanguage a)) = none := by
      rw [infer_framework_stepCategory, infer_framework_stepLanguage]
      exact hi
    rw [enrichStep, stepFramework_of_none _ hni, stepCategory_framework,
      stepLanguage_framework, h3]
  · rw [enrichStep, stepLanguage_of_ne a h1, stepCategory_of_ne a h2,
      stepFramework_of_ne a h3]

theorem C2_sentinel_gating_witness : enrichStep resolvedAgent = resolvedAgent :=
  (C2_sentinel_gating resolvedAgent).2.2.2.2.2.2 (by decide) (by decide) (by decide)

/-- C3: when the highest accumulated score in the tally is below 2 (the empty
tally included), each of the three inference functions returns no decision. -/
theorem C3_acceptance_floor (a : Agent) :
    (maxScore (langTally a) < 2 → infer_language a = none) ∧
    (maxScore (catTally a) < 2 → infer_category a = none) ∧
    (maxScore (fwTally a) < 2 → infer_framework a = none) := by
  refine ⟨fun h => ?_, fun h => ?_, fun h => ?_⟩
  · unfold infer_language
    cases ht : langTally? a with
    | none => rfl
    | some t =>
      have htt : langTally a = t := by simp [langTally, ht]
      rw [htt] at h
      exact gateLang_none_of_low t h
  · unfold infer_category
    by_cases hl : is_lifie_business_agent a
    · exfalso
      have h3 := lifie_enterprise_ge a hl
      have h4 : wsum (catTally a) "enterprise" = wsum (catContribs a) "enterprise" :=
        wsum_mkTally _ _
      have h5 := wsum_le_maxScore (catTally a) "enterprise" (nodupKeys_mkTally _)
      omega
    · rw [if_neg hl]
      exact gateCat_none_of_low _ h
  · exact gateFw_none_of_low _ _ h

theorem C3_acceptance_floor_witness :
    infer_language emptyAgent = none ∧ infer_category emptyAgent = none ∧
    infer_framework emptyAgent = none :=
  ⟨(C3_acceptance_floor emptyAgent).1 (by decide),
   (C3_acceptance_floor emptyAgent).2.1 (by decide),
   (C3_acceptance_floor emptyAgent).2.2 (by decide)⟩

/-- C4 as stated is false: the code checks the literal `Lifie` in the provider
name (and lowercase `lifie` in the url) case-sensitively, not
case-insensitively.  A provider named `LIFIE AI` with tag `business` passes
the case-insensitive condition of the claim yet is scored normally, and
resolves to `search`. -/
theorem C4_lifie_override_counterexample :
    containsL (lowerL "Lifie".data)
      (lowerL ((getProvider lifieCaseAgent).name.getD "").data) = true ∧
    "business" ∈ getTags lifieCaseAgent ∧
    infer_category lifieCaseAgent ≠ some "enterprise" ∧
    infer_category lifieCaseAgent = some "search" := by decide

/-- C4, amended: for every record whose provider name contains `Lifie` or
whose provider url contains `lifie` (both case-sensitively, as the code
checks them) and whose tags include `business` or `commerce`,
`infer_category` returns `enterprise` immediately, bypassing scoring. -/
theorem C4_lifie_override (a : Agent)
    (hmark : containsL "Lifie".data ((getProvider a).name.getD "").data = true ∨
      containsL "lifie".data ((getProvider a).url.getD "").data = true)
    (htag : "business" ∈ getTags a ∨ "commerce" ∈ getTags a) :
    infer_category a = some "enterprise" := by
  have hl : is_lifie_business_agent a = true := by
    unfold is_lifie_business_agent
    simp only [Bool.and_eq_true, Bool.or_eq_true]
    constructor
    · exact hmark
    · rcases htag with h | h
      · exact Or.inl (decide_eq_true h)
      · exact Or.inr (decide_eq_true h)
  unfold infer_category
  rw [if_pos hl]

theorem C4_lifie_override_witness : infer_category lifieAgent = some "enterprise" :=
  C4_lifie_override lifieAgent (Or.inl (by decide)) (Or.inl (by decide))

/-- C5: when the top framework candidate is `google-adk` with a score of at
least the floor 2 but below the elevated threshold 3, `infer_framework`
returns no decision unless some raw tag case-folds to one of the four adk
tags; the otherwise-identical record additionally tagged `adk` resolves to
`google-adk`. -/
theorem C5_adk_veto (a : Agent) (s : Nat)
    (htop : mostCommon1 (fwTally a) = some ("google-adk", s))
    (h2 : 2 ≤ s) (h3 : s < 3) :
    (hasAdkTag (getTags a) = false → infer_framework a = none) ∧
    infer_framework { a with tags := some (getTags a ++ ["adk"]) } =
      some "google-adk" := by
  constructor
  · intro hnt
    unfold infer_framework
    simp only [gateFw, htop]
    rw [if_neg (by omega : ¬s < 2), if_pos (⟨trivial, h3⟩ : True ∧ s < 3),
      if_neg (by rw [hnt]; exact Bool.false_ne_true)]
  · have hshift : ∀ x, wsum (fwContribs { a with tags := some (getTags a ++ ["adk"]) }) x =
        wsum (fwContribs a) x + (if "google-adk" = x then 3 else 0) := by
      intro x
      have hca2 : fwContribs { a with tags := some (getTags a ++ ["adk"]) } =
          (tagFwContribs (getTags a) ++ [("google-adk", 3)]) ++
          textFwContribs (fwAllText a) ++ officialFwContribs (getDesc a) := by
        unfold fwContribs
        have h1 : getTags { a with tags := some (getTags a ++ ["adk"]) } =
            getTags a ++ ["adk"] := rfl
        have h2 : fwAllText { a with tags := some (getTags a ++ ["adk"]) } =
            fwAllText a := rfl
        have h3 : getDesc { a with tags := some (getTags a ++ ["adk"]) } =
            getDesc a := rfl
        rw [h1, h2, h3]
        unfold tagFwContribs
        rw [List.filterMap_append]
        rfl
      rw [hca2]
      unfold fwContribs
      rw [wsum_append, wsum_append, wsum_append, wsum_append, wsum_append,
        wsum_singleton]
      omega
    have hmemA : ("google-adk", s) ∈ fwTally a := mostCommon1_mem _ _ htop
    have hg1 : wsum (fwTally a) "google-adk" = s :=
      wsum_of_mem _ _ _ (nodupKeys_mkTally _) hmemA
    have hmax : maxScore (fwTally a) = s := by
      have := mostCommon1_maxScore _ _ htop
      simpa using this
    have hg2 : wsum (fwTally { a with tags := some (getTags a ++ ["adk"]) })
        "google-adk" = s + 3 := by
      have e1 : wsum (fwTally { a with tags := some (getTags a ++ ["adk"]) })
          "google-adk" = wsum (fwContribs { a with tags := some (getTags a ++ ["adk"]) })
          "google-adk" := wsum_mkTally _ _
      have e2 : wsum (fwTally a) "google-adk" = wsum (fwContribs a) "google-adk" :=
        wsum_mkTally _ _
      have e3 := hshift "google-adk"
      rw [if_pos rfl] at e3
      omega
    have hother : ∀ x, x ≠ "google-adk" →
        wsum (fwTally { a with tags := some (getTags a ++ ["adk"]) }) x ≤ s := by
      intro x hx
      have e1 : wsum (fwTally { a with tags := some (getTags a ++ ["adk"]) }) x =
          wsum (fwContribs { a with tags := some (getTags a ++ ["adk"]) }) x :=
        wsum_mkTally _ _
      have e2 : wsum (fwTally a) x = wsum (fwContribs a) x := wsum_mkTally _ _
      have e3 := hshift x
      rw [if_neg (fun hc => hx hc.symm)] at e3
      have hle := wsum_le_maxScore (fwTally a) x (nodupKeys_mkTally _)
      omega
    have hmem2 : ("google-adk", s + 3) ∈
        fwTally { a with tags := some (getTags a ++ ["adk"]) } := by
      have := mem_of_wsum_ne (fwTally { a with tags := some (getTags a ++ ["adk"]) })
        "google-adk" (nodupKeys_mkTally _) (by omega)
      rwa [hg2] at this
    have hstrict : ∀ q ∈ fwTally { a with tags := some (getTags a ++ ["adk"]) },
        q.1 ≠ "google-adk" → q.2 < s + 3 := by
      intro q hq hq1
      have hw : wsum (fwTally { a with tags := some (getTags a ++ ["adk"]) }) q.1 = q.2 :=
        wsum_of_mem _ _ _ (nodupKeys_mkTally _) (by simpa using hq)
      have := hother q.1 hq1
      omega
    have hmc2 : mostCommon1 (fwTally { a with tags := some (getTags a ++ ["adk"]) }) =
        some ("google-adk", s + 3) :=
      mostCommon1_of_strict _ _ _ (nodupKeys_mkTally _) hmem2 hstrict
    unfold infer_framework
    simp only [gateFw, hmc2]
    rw [if_neg (by omega : ¬s + 3 < 2),
      if_neg (fun hc => absurd hc.2 (by omega) : ¬(True ∧ s + 3 < 3))]

theorem C5_adk_veto_witness :
    infer_framework adkDescAgent = none ∧
    infer_framework { adkDescAgent with tags := some (getTags adkDescAgent ++ ["adk"]) } =
      some "google-adk" := by
  have h := C5_adk_veto adkDescAgent 2 (by decide) (by decide) (by decide)
  exact ⟨h.1 (by decide), h.2⟩

/-- C6 as stated is false for the framework axis: the framework official-sample
rule is guarded by substring containment of `Official A2A`, not by a prefix
test, so a description carrying the marker only mid-text still emits the
elevated-weight contribution, and it changes the outcome of
`infer_framework`. -/
theorem C6_official_marker_counterexample :
    spre "Official A2A".data (getDesc midMarkerAgent).data = false ∧
    officialFwContribs (getDesc midMarkerAgent) = [("crewai", 4), ("crewai", 4)] ∧
    infer_framework midMarkerAgent = some "crewai" := by decide

/-- C6, amended: the language-axis official-sample rule contributes only when
the description starts with `Official A2A`; the framework-axis rule
contributes only when the description contains `Official A2A` anywhere. -/
theorem C6_official_marker_guards :
    (∀ desc : String, spre "Official A2A".data desc.data = false →
      officialLangContribs desc = []) ∧
    (∀ desc : String, containsL "Official A2A".data desc.data = false →
      officialFwContribs desc = []) := by
  constructor
  · intro desc h
    unfold officialLangContribs
    rw [if_neg (by rw [h]; exact Bool.false_ne_true)]
  · intro desc h
    unfold officialFwContribs
    rw [if_neg (by rw [h]; exact Bool.false_ne_true)]

theorem C6_official_marker_guards_witness :
    officialLangContribs "A plain description" = [] ∧
    officialFwContribs "A plain description" = [] :=
  ⟨C6_official_marker_guards.1 "A plain description" (by decide),
   C6_official_marker_guards.2 "A plain description" (by decide)⟩

/-- C8: the record tagged exactly `python` and `fastapi` with sentinel
language accumulates the single-candidate tally `python = 6` and resolves
language to `python`. -/
theorem C8_python_fastapi :
    langTally pythonFastapiAgent = [("python", 6)] ∧
    infer_language pythonFastapiAgent = some "python" := by decide

/-- C9: inference is total.  The checked language pipeline never reaches the
error value modelling `IndexError` (the fifth-segment access is guarded), a
repository URL that is not a github URL with at least five slash-delimited
segments contributes nothing, and missing tags or description likewise
contribute nothing. -/
theorem C9_total_no_raise :
    (∀ a : Agent, (langTally? a).isSome) ∧
    (∀ repo : String,
      ¬(containsL "github.com".data repo.data = true ∧
        5 ≤ (splitSlash (rstripSlash repo.data)).length) →
      repoLangContribs repo = some []) ∧
    (∀ a : Agent, a.tags = none → tagLangContribs (getTags a) = []) ∧
    (∀ a : Agent, a.description = none →
      descLangContribs (getDesc a) = [] ∧ officialLangContribs (getDesc a) = []) := by
  have hsome : ∀ repo : String, (repoLangContribs repo).isSome := by
    intro repo
    unfold repoLangContribs
    by_cases h0 : repo.data.isEmpty
    · rw [if_pos h0]
      rfl
    · rw [if_neg h0]
      cases hb : (containsL "github.com".data repo.data &&
          decide (5 ≤ (splitSlash (rstripSlash repo.data)).length)) with
      | false =>
        rw [if_neg Bool.false_ne_true]
        rfl
      | true =>
        rw [if_pos rfl]
        cases hseg : (splitSlash (rstripSlash repo.data)).get? 4 with
        | some seg => simp
        | none =>
          exfalso
          have hlen : (splitSlash (rstripSlash repo.data)).length ≤ 4 :=
            List.get?_eq_none.mp hseg
          have := of_decide_eq_true (Bool.and_eq_true_iff.mp hb).2
          omega
  refine ⟨fun a => ?_, fun repo h => ?_, fun a h => ?_, fun a h => ?_⟩
  · unfold langTally? langContribs?
    obtain ⟨v, hv⟩ := Option.isSome_iff_exists.mp (hsome (getRepo a))
    rw [hv]
    rfl
  · unfold repoLangContribs
    by_cases h0 : repo.data.isEmpty
    · rw [if_pos h0]
    · rw [if_neg h0]
      cases hb : (containsL "github.com".data repo.data &&
          decide (5 ≤ (splitSlash (rstripSlash repo.data)).length)) with
      | false => rw [if_neg Bool.false_ne_true]
      | true =>
        exfalso
        obtain ⟨hc1, hc2⟩ := Bool.and_eq_true_iff.mp hb
        exact h ⟨hc1, of_decide_eq_true hc2⟩
  · have ht : getTags a = [] := by simp [getTags, h]
    rw [ht]
    rfl
  · have hd : getDesc a = "" := by simp [getDesc, h]
    rw [hd]
    exact ⟨by decide, by decide⟩

theorem C9_total_no_raise_witness :
    (langTally? gitlabAgent).isSome ∧
    repoLangContribs "https://gitlab.com/foo/bar" = some [] ∧
    tagLangContribs (getTags emptyAgent) = [] ∧
    descLangContribs (getDesc emptyAgent) = [] :=
  ⟨C9_total_no_raise.1 gitlabAgent,
   C9_total_no_raise.2.1 "https://gitlab.com/foo/bar" (by decide),
   C9_total_no_raise.2.2.1 emptyAgent rfl,
   (C9_total_no_raise.2.2.2 emptyAgent rfl).1⟩

/-- C10: every label ever returned by `infer_category` is one of the twelve
categories appearing on the right-hand side of some rule; in particular
`multi-agent`, though a member of `VALID_CATEGORIES`, is never returned. -/
theorem C10_category_labels (a : Agent) (c : String)
    (h : infer_category a = some c) :
    c ∈ INFERRED_CATEGORIES ∧ c ≠ "multi-agent" := by
  have hc : c ∈ INFERRED_CATEGORIES := by
    unfold infer_category at h
    by_cases hl : is_lifie_business_agent a
    · rw [if_pos hl] at h
      rw [← Option.some_inj.mp h]
      decide
    · rw [if_neg hl] at h
      cases hm : mostCommon1 (catTally a) with
      | none =>
        simp only [gateCat, hm] at h
        exact Option.noConfusion h
      | some p =>
        simp only [gateCat, hm] at h
        by_cases hlow : p.2 < 2
        · rw [if_pos hlow] at h
          exact Option.noConfusion h
        · rw [if_neg hlow] at h
          have hcp : p.1 = c := Option.some_inj.mp h
          have hpmem := mostCommon1_mem _ _ hm
          have hkey : p.1 ∈ keys (catTally a) := List.mem_map_of_mem Prod.fst hpmem
          have hlab := mem_keys_mkTally (catContribs a) p.1 hkey
          obtain ⟨q, hq, hq1⟩ := List.mem_map.mp hlab
          rw [← hcp, ← hq1]
          exact catContribs_labels a q hq
  refine ⟨hc, ?_⟩
  have hne : ∀ x ∈ INFERRED_CATEGORIES, x ≠ "multi-agent" := by decide
  exact hne c hc

theorem C10_category_labels_witness :
    "enterprise" ∈ INFERRED_CATEGORIES ∧ "enterprise" ≠ "multi-agent" :=
  C10_category_labels businessAgent "enterprise" (by decide)

/-- C7 as stated is false: the structured-prefix weight dominates generic
description keywords, but not tag signals.  A record whose description is an
official Crewai sample yet carries six spring-pointing tags (score 18 against
crewai 12) resolves to `spring-boot`, not `crewai`. -/
theorem C7_crewai_dominance_counterexample :
    spre "Official A2A".data (getDesc springCrewaiAgent).data = true ∧
    fwSampleName (getDesc springCrewaiAgent) = "crewai".data ∧
    infer_framework springCrewaiAgent = some "spring-boot" := by decide

/-- C7, amended: for every record whose description starts with
`Official A2A` and whose sample-name parse (text after the last colon,
stripped and lowercased) is exactly `crewai`, and none of whose tags
case-folds to a key of the framework tag table, `infer_framework` returns
`crewai` — the official-sample contribution (8) plus the generic `crewai`
pattern (at least 2) strictly dominates every other label, whose generic
description/name/slug/repository contributions total at most 8. -/
theorem C7_crewai_dominance (a : Agent)
    (hpre : spre "Official A2A".data (getDesc a).data = true)
    (hname : fwSampleName (getDesc a) = "crewai".data)
    (htags : ∀ t ∈ getTags a, alookup TAG_TO_FRAMEWORK (strLower t) = none) :
    infer_framework a = some "crewai" := by
  have htag0 : tagFwContribs (getTags a) = [] := by
    unfold tagFwContribs
    rw [List.filterMap_eq_nil_iff]
    intro t ht
    rw [htags t ht]
    rfl
  have hoff2 : officialFwContribs (getDesc a) = [("crewai", 4), ("crewai", 4)] := by
    unfold officialFwContribs
    rw [if_pos (contains_of_spre _ _ hpre), hname]
    decide
  have hocc2 : word "crewai" (lowerL (fwAllText a).data) = true := crewai_occurs a hname
  have hcw : ("crewai", 2) ∈ textFwContribs (fwAllText a) := by
    unfold textFwContribs
    apply List.mem_filterMap.mpr
    refine ⟨(word "crewai", "crewai"), ?_, ?_⟩
    · unfold FRAMEWORK_DETECTION
      exact List.mem_cons_of_mem _ (List.mem_cons_of_mem _ (List.mem_cons_of_mem _
        (List.mem_cons_of_mem _ (List.mem_cons_self _ _))))
    · dsimp only
      rw [if_pos hocc2]
  have htext_cw : 2 ≤ wsum (textFwContribs (fwAllText a)) "crewai" :=
    le_wsum_of_mem _ _ _ hcw
  have hsum : ∀ x, wsum (fwContribs a) x = wsum (tagFwContribs (getTags a)) x +
      wsum (textFwContribs (fwAllText a)) x +
      wsum (officialFwContribs (getDesc a)) x := by
    intro x
    unfold fwContribs
    rw [wsum_append, wsum_append]
  have htagz : ∀ x, wsum (tagFwContribs (getTags a)) x = 0 := by
    intro x
    rw [htag0]
    rfl
  have hoffz : ∀ x, x ≠ "crewai" → wsum (officialFwContribs (getDesc a)) x = 0 := by
    intro x hx
    rw [hoff2, wsum_cons, wsum_cons, wsum_nil, if_neg (fun hc => hx hc.symm)]
  have hoffc : wsum (officialFwContribs (getDesc a)) "crewai" = 8 := by
    rw [hoff2]
    decide
  have eW : wsum (fwTally a) "crewai" = wsum (fwContribs a) "crewai" := wsum_mkTally _ _
  have hW : 10 ≤ wsum (fwTally a) "crewai" := by
    have h1 := hsum "crewai"
    have h2 := htagz "crewai"
    omega
  have hother : ∀ x, x ≠ "crewai" → wsum (fwTally a) x ≤ 8 := by
    intro x hx
    have e : wsum (fwTally a) x = wsum (fwContribs a) x := wsum_mkTally _ _
    have h1 := hsum x
    have h2 := htagz x
    have h3 := hoffz x hx
    have h4 : wsum (textFwContribs (fwAllText a)) x ≤ 8 := FD_text_bound _ x hx
    omega
  have hmemC : ("crewai", wsum (fwTally a) "crewai") ∈ fwTally a :=
    mem_of_wsum_ne _ _ (nodupKeys_mkTally _) (by omega)
  have hstrict : ∀ q ∈ fwTally a, q.1 ≠ "crewai" → q.2 < wsum (fwTally a) "crewai" := by
    intro q hq hq1
    have hw : wsum (fwTally a) q.1 = q.2 :=
      wsum_of_mem _ _ _ (nodupKeys_mkTally _) (by simpa using hq)
    have := hother q.1 hq1
    omega
  have hmc : mostCommon1 (fwTally a) = some ("crewai", wsum (fwTally a) "crewai") :=
    mostCommon1_of_strict _ _ _ (nodupKeys_mkTally _) hmemC hstrict
  unfold infer_framework
  simp only [gateFw, hmc]
  rw [if_neg (by omega : ¬wsum (fwTally a) "crewai" < 2),
    if_neg (fun hc => by simp at hc)]

theorem C7_crewai_dominance_witness :
    infer_framework officialCrewaiAgent = some "crewai" :=
  C7_crewai_dominance officialCrewaiAgent (by decide) (by decide) (by decide)

end Enrich
